import Mathlib

/-!
# lualibvoikko: the Lua binding of libvoikko (`src/C/src/interface.cpp`)

A shallow embedding of the binding layer.  The C functions of `interface.cpp`
are translated one by one; the two libraries they sit between are not part of
the repository and are handled as follows.

* libvoikko is a parameter (`Libvoikko`): every native entry point is a
  function whose result is arbitrary.  A `char **` result is `none` for a null
  pointer and otherwise an address together with the strings that precede the
  terminating null.  Calls that hand out or release native memory, and the
  reads of a native string array, are recorded in a trace.
* The Lua 5.3 C API is modelled after its reference manual: a value stack, the
  registry, table objects held by reference, and errors that abandon the
  running C function.  `luaL_error` builds its message from the position of the
  caller (`luaL_where (L, 1)`) and the expansion of its format argument.
  The memory error an interpreter call may raise is modelled in `make_table`,
  where the release of a native array depends on it; elsewhere interpreter
  calls are taken to succeed.  The maximal size of a table and metatables are
  not modelled.

C strings are `String`s.  An `int` is a 32-bit integer.  Calls whose behaviour
the C standard leaves undefined (`i++` on `INT_MAX`, a null pointer passed to
`strcmp` or to the `std::string` constructor, a conversion without its
argument) produce `Result.undefined`.
-/

namespace Lualibvoikko

/-! ## Values of the Lua interpreter -/

/-- Addresses handled by the binding. -/
inductive Pointer where
  | null
  | global (name : String)
  | heap (addr : Nat)
  deriving DecidableEq, Repr

/-- Lua values that occur in the binding. A table is a reference to a table object. -/
inductive LuaValue where
  | nil
  | integer (n : Int)
  | string (s : String)
  | lightuserdata (p : Pointer)
  | table (ref : Nat)
  deriving DecidableEq, Repr

/-- Contents of a table object: the entries whose value is not nil, one per key. -/
abbrev Table := List (LuaValue × LuaValue)

/-- Raw read `t[k]`; an absent key reads as nil. -/
def rawget : Table → LuaValue → LuaValue
  | [], _ => .nil
  | (k1, v1) :: t, k => if k1 = k then v1 else rawget t k

/-- Raw write `t[k] = v`; writing nil removes the entry. -/
def rawset : Table → LuaValue → LuaValue → Table
  | [], k, v => if v = .nil then [] else [(k, v)]
  | (k1, v1) :: t, k, v =>
    if k1 = k then (if v = .nil then t else (k, v) :: t) else (k1, v1) :: rawset t k v

/-- Successive raw writes, first pair first. -/
def rawset_list (t : Table) (kvs : List (LuaValue × LuaValue)) : Table :=
  kvs.foldl (fun t kv => rawset t kv.1 kv.2) t

/-! ## Native library -/

/-- Calls into libvoikko that acquire or release native memory, in program order. -/
inductive NativeEvent where
  | cstr_array_returned (addr : Nat)
  | cstr_array_read (addr : Nat) (index : Nat)
  | voikkoFreeCstrArray (addr : Nat)
  | voikkoTerminate (handle : Pointer)
  | voikko_free_mor_analysis (analysis : Option Nat)
  | voikko_free_mor_analysis_value_cstr (value : String)
  deriving DecidableEq, Repr

/-- A non-null `char **`: its address and the strings before the terminating null. -/
structure CstrArray where
  addr : Nat
  items : List String
  deriving DecidableEq, Repr

/-- One `voikko_mor_analysis`: the array of `voikko_mor_analysis_keys` and the
function `voikko_mor_analysis_value_cstr` (`none` is the null pointer). -/
structure voikko_mor_analysis where
  keys : List String
  value_cstr : String → Option String

/-- A non-null `voikko_mor_analysis **`. -/
structure MorAnalysisArray where
  addr : Nat
  items : List voikko_mor_analysis

/-- The entry points of libvoikko called by the functions below. `voikkoInit` yields
the error message it stored (if any) and the handle it returned. -/
structure Libvoikko where
  voikkoInit : String → String → Option String × Pointer
  voikkoSuggestCstr : Pointer → String → Option CstrArray
  voikkoGetAttributeValues : Pointer → String → Option CstrArray
  voikkoListSupportedSpellingLanguages : String → Option CstrArray
  voikkoListSupportedHyphenationLanguages : String → Option CstrArray
  voikkoListSupportedGrammarCheckingLanguages : String → Option CstrArray
  voikkoAnalyzeWordCstr : Pointer → String → Option MorAnalysisArray

/-! ## Interpreter state -/

/-- What a C function reaches through `lua_State *L`, with the trace of native calls.
The stack is kept top first. `position` is the text `luaL_where (L, 1)` yields:
the caller's `chunk:line: `, or the empty string when that is unavailable.
`memory` is how many more of the memory-needing interpreter calls of `make_table`
succeed before one raises the memory error; `none` means all of them do. -/
structure State where
  stack : List LuaValue
  registry : Table
  heap : List Table
  position : String
  trace : List NativeEvent
  memory : Option Nat

/-- Errors raised through the interpreter. -/
inductive LuaError where
  | message (text : String)
  | bad_argument (arg : Nat)
  | invalid_format_option
  | table_index_is_nil
  | not_enough_memory
  deriving DecidableEq, Repr

/-- Outcome of a piece of C code: normal completion, a raised Lua error (control
does not come back), or undefined behaviour. -/
inductive Result (α : Type) where
  | ok (a : α) (S : State)
  | raised (e : LuaError) (S : State)
  | undefined

/-- Sequencing: the continuation runs only after normal completion. -/
def Result.bind {α β : Type} : Result α → (α → State → Result β) → Result β
  | .ok a S, f => f a S
  | .raised e S, _ => .raised e S
  | .undefined, _ => .undefined

/-! ## Lua C API -/

/-- Pseudo-index of the registry (`-LUAI_MAXSTACK - 1000`). -/
def LUA_REGISTRYINDEX : Int := -1001000

/-- Value at a stack index: positive counts from the bottom, negative from the top. -/
def index2value (S : State) (idx : Int) : Option LuaValue :=
  if 0 < idx then S.stack.reverse[idx.toNat - 1]?
  else if idx < 0 then S.stack[(-idx).toNat - 1]?
  else none

/-- Where a table lives. -/
inductive TableLoc where
  | registry
  | object (ref : Nat)
  deriving DecidableEq, Repr

/-- Table designated by an index. -/
def index2table (S : State) (idx : Int) : Option TableLoc :=
  if idx = LUA_REGISTRYINDEX then some .registry
  else match index2value S idx with
    | some (.table r) => if r < S.heap.length then some (.object r) else none
    | _ => none

/-- Contents of a table. -/
def read_table (S : State) : TableLoc → Table
  | .registry => S.registry
  | .object r => S.heap.getD r []

/-- Replace the contents of a table. -/
def write_table (S : State) (loc : TableLoc) (t : Table) : State :=
  match loc with
  | .registry => { S with registry := t }
  | .object r => { S with heap := S.heap.set r t }

/-- Push a light userdata. -/
def lua_pushlightuserdata (S : State) (p : Pointer) : State :=
  { S with stack := .lightuserdata p :: S.stack }

/-- Push a copy of a C string. -/
def lua_pushstring (S : State) (s : String) : State :=
  { S with stack := .string s :: S.stack }

/-- Create an empty table and push it. -/
def lua_newtable (S : State) : State :=
  { S with stack := .table S.heap.length :: S.stack, heap := S.heap ++ [[]] }

/-- Pop a key and push `t[key]`, `t` being the table at `idx`. -/
def lua_gettable (S : State) (idx : Int) : Result Unit :=
  match S.stack, index2table S idx with
  | k :: rest, some loc => .ok () { S with stack := rawget (read_table S loc) k :: rest }
  | _, _ => .undefined

/-- Pop a value and the key below it, and do `t[key] = value`. -/
def lua_settable (S : State) (idx : Int) : Result Unit :=
  match S.stack, index2table S idx with
  | v :: k :: rest, some loc =>
    if k = .nil then .raised .table_index_is_nil S
    else .ok () (write_table { S with stack := rest } loc (rawset (read_table S loc) k v))
  | _, _ => .undefined

/-- Pop a value and do `t[k] = value`. -/
def lua_setfield (S : State) (idx : Int) (k : String) : Result Unit :=
  match S.stack, index2table S idx with
  | v :: rest, some loc =>
    .ok () (write_table { S with stack := rest } loc (rawset (read_table S loc) (.string k) v))
  | _, _ => .undefined

/-- Pop a value and do `t[n] = value` without metamethods. -/
def lua_rawseti (S : State) (idx : Int) (n : Int) : Result Unit :=
  match S.stack, index2table S idx with
  | v :: rest, some loc =>
    .ok () (write_table { S with stack := rest } loc (rawset (read_table S loc) (.integer n) v))
  | _, _ => .undefined

/-- An interpreter call that may need memory (marked `m` in the reference manual)
gets it, or raises the memory error when the budget of the state is used up. -/
def lua_alloc (S : State) : Result Unit :=
  match S.memory with
  | none => .ok () S
  | some 0 => .raised .not_enough_memory S
  | some (m + 1) => .ok () { S with memory := some m }

/-- Address held by the light userdata at `idx`, null for any other value. -/
def lua_touserdata (S : State) (idx : Int) : Pointer :=
  match index2value S idx with
  | some (.lightuserdata p) => p
  | _ => .null

/-- Decimal text of an integer, as `%d` prints it. -/
def decimal (i : Int) : String :=
  if i < 0 then "-" ++ Nat.repr i.natAbs else Nat.repr i.natAbs

/-- Argument `arg` as a string; an integer is converted in place, anything else
raises an argument error. -/
def luaL_checkstring (S : State) (arg : Nat) : Result String :=
  match index2value S arg with
  | some (.string s) => .ok s S
  | some (.integer n) =>
    .ok (decimal n) { S with stack := S.stack.set (S.stack.length - arg) (.string (decimal n)) }
  | _ => .raised (.bad_argument arg) S

/-- Result of expanding a format that is given no arguments. -/
inductive Formatted where
  | text (cs : List Char)
  | missing_argument
  | invalid_option
  deriving DecidableEq, Repr

/-- Put a character in front of an expansion. -/
def Formatted.cons (c : Char) : Formatted → Formatted
  | .text cs => .text (c :: cs)
  | .missing_argument => .missing_argument
  | .invalid_option => .invalid_option

/-- Conversion letters `lua_pushvfstring` accepts after a percent sign. -/
def conversions : List Char := ['s', 'c', 'd', 'I', 'f', 'p', 'U']

/-- Expansion `lua_pushvfstring` performs when the argument list is empty. -/
def format_noargs : List Char → Formatted
  | [] => .text []
  | c :: rest =>
    if c = '%' then
      match rest with
      | [] => .invalid_option
      | d :: rest2 =>
        if d = '%' then (format_noargs rest2).cons '%'
        else if d ∈ conversions then .missing_argument
        else .invalid_option
    else (format_noargs rest).cons c

/-- Call `luaL_error (L, fmt)` with no further argument: the message is the
position followed by the expanded format. -/
def luaL_error {α : Type} (S : State) (fmt : String) : Result α :=
  match format_noargs fmt.data with
  | .text cs => .raised (.message (S.position ++ String.mk cs)) S
  | .missing_argument => .undefined
  | .invalid_option => .raised .invalid_format_option S

/-! ## `interface.cpp` -/

/-- Fix spelling mistakes that are in Libvoikko code. -/
def fix_value (key value : String) : String :=
  if key = "SIJAMUOTO" then
    if value = "nimento" then "nimentö"
    else if value = "omanto" then "omanto"
    else if value = "osanto" then "osanto"
    else if value = "olento" then "olento"
    else if value = "tulento" then "tulento"
    else if value = "kohdanto" then "kohdanto"
    else if value = "sisaolento" then "sisäolento"
    else if value = "sisaeronto" then "sisäeronto"
    else if value = "sisatulento" then "sisätulento"
    else if value = "ulkoolento" then "ulko_olento"
    else if value = "ulkoeronto" then "ulkoeronto"
    else if value = "ulkotulento" then "ulkotulento"
    else if value = "vajanto" then "vajanto"
    else if value = "seuranto" then "seuranto"
    else if value = "keinonto" then "keinonto"
    else if value = "kerrontosti" then "kerronto_sti"
    else value
  else value

/-- The registry key `&HANDLE`: the address of the static variable `HANDLE`. -/
def HANDLE : Pointer := .global "HANDLE"

/-- Gets Voikko handle from the registry. The value read stays on the stack. -/
def get_handle (S : State) : Result Pointer :=
  (lua_gettable (lua_pushlightuserdata S HANDLE) LUA_REGISTRYINDEX).bind fun _ S1 =>
    .ok (lua_touserdata S1 (-1)) S1

/-- Largest value of an `int`. -/
def INT_MAX : Int := 2147483647

/-- The statement `i++` on an `int`: the new value, or `none` when `i` is `INT_MAX`
and the increment overflows. -/
def int_incr (i : Int) : Option Int :=
  if i < INT_MAX then some (i + 1) else none

/-- Read element `index` of the native array at `addr` (the expression `*s`). -/
def read_cstr_array (S : State) (addr index : Nat) : State :=
  { S with trace := S.trace ++ [.cstr_array_read addr index] }

/-- Loop of `make_table` over the array at `addr`, `k` being the index `s - list`:
the test `*s`, then `lua_pushstring (L, *s); lua_rawseti (L, -2, i++);`. -/
def make_table_loop (addr : Nat) : List String → Nat → Int → State → Result Unit
  | [], k, _, S => .ok () (read_cstr_array S addr k)
  | s :: rest, k, i, S =>
    (lua_alloc (read_cstr_array (read_cstr_array S addr k) addr k)).bind fun _ S1 =>
      match int_incr i with
      | none => .undefined
      | some i1 =>
        (lua_alloc (lua_pushstring S1 s)).bind fun _ S2 =>
          (lua_rawseti S2 (-2) i).bind fun _ S3 => make_table_loop addr rest (k + 1) i1 S3

/-- Push a new table holding the strings of `list` under `1, 2, ...`. -/
def make_table (S : State) (list : CstrArray) : Result Unit :=
  (lua_alloc S).bind fun _ S1 => make_table_loop list.addr list.items 0 1 (lua_newtable S1)

/-- Record that a native call handed out the array at `addr`. -/
def note_cstr_array (S : State) (addr : Nat) : State :=
  { S with trace := S.trace ++ [.cstr_array_returned addr] }

/-- Call `voikkoFreeCstrArray (list)`. -/
def voikkoFreeCstrArray (S : State) (addr : Nat) : State :=
  { S with trace := S.trace ++ [.voikkoFreeCstrArray addr] }

/-- Call `voikkoTerminate (handle)`. -/
def voikkoTerminate (S : State) (handle : Pointer) : State :=
  { S with trace := S.trace ++ [.voikkoTerminate handle] }

/-- Call `voikko_free_mor_analysis (analysis)`. -/
def voikko_free_mor_analysis (S : State) (analysis : Option Nat) : State :=
  { S with trace := S.trace ++ [.voikko_free_mor_analysis analysis] }

/-- Call `voikko_free_mor_analysis_value_cstr (value)`. -/
def voikko_free_mor_analysis_value_cstr (S : State) (value : String) : State :=
  { S with trace := S.trace ++ [.voikko_free_mor_analysis_value_cstr value] }

/-- Template `get_list`: a native function of the path in argument 1. -/
def get_list (S : State) (f : String → Option CstrArray) : Result Nat :=
  (luaL_checkstring S 1).bind fun path S1 =>
    match f path with
    | some list =>
      (make_table (note_cstr_array S1 list.addr) list).bind fun _ S2 =>
        .ok 1 (voikkoFreeCstrArray S2 list.addr)
    | none => .ok 0 S1

/-- Template `get_list2`: a native function of the handle and the string in argument 1. -/
def get_list2 (S : State) (f : Pointer → String → Option CstrArray) : Result Nat :=
  (luaL_checkstring S 1).bind fun string S1 =>
    (get_handle S1).bind fun handle S2 =>
      match f handle string with
      | some list =>
        (make_table (note_cstr_array S2 list.addr) list).bind fun _ S3 =>
          .ok 1 (voikkoFreeCstrArray S3 list.addr)
      | none => .ok 0 S2

/-- Initialises libvoikko. -/
def lualibvoikko_init (lib : Libvoikko) (S : State) : Result Nat :=
  (luaL_checkstring S 1).bind fun langcode S1 =>
    (luaL_checkstring S1 2).bind fun path S2 =>
      match lib.voikkoInit langcode path with
      | (some error, _) => luaL_error S2 error
      | (none, handle) =>
        (lua_settable (lua_pushlightuserdata (lua_pushlightuserdata S2 HANDLE) handle)
          LUA_REGISTRYINDEX).bind fun _ S3 => .ok 0 S3

/-- Terminates libvoikko. -/
def lualibvoikko_terminate (S : State) : Result Nat :=
  (get_handle S).bind fun handle S1 => .ok 0 (voikkoTerminate S1 handle)

/-- Calls `voikkoSuggestCstr (handle, word)`. -/
def lualibvoikko_suggest_cstr (lib : Libvoikko) (S : State) : Result Nat :=
  get_list2 S lib.voikkoSuggestCstr

/-- Size of the label buffer in `lualibvoikko_analyze_word_cstr`. -/
def N : Nat := 100

/-- The call `snprintf (buffer, N, "table%d", i)`: the text left in `buffer` (at most
`N - 1` characters) and the returned length of the untruncated text. -/
def snprintf_table (i : Int) : String × Nat :=
  (String.mk (("table" ++ decimal i).data.take (N - 1)), ("table" ++ decimal i).length)

/-- Inner loop of `lualibvoikko_analyze_word_cstr` over the keys of one analysis. -/
def attribute_loop (a : voikko_mor_analysis) : List String → State → Result Unit
  | [], S => .ok () S
  | k :: ks, S =>
    match a.value_cstr k with
    | none => .undefined
    | some value =>
      (lua_setfield (lua_pushstring S (fix_value k value)) (-2) k).bind fun _ S1 =>
        attribute_loop a ks (voikko_free_mor_analysis_value_cstr S1 value)

/-- Outer loop of `lualibvoikko_analyze_word_cstr` over the analyses, `i` being the counter. -/
def analysis_loop : List voikko_mor_analysis → Int → State → Result Unit
  | [], _, S => .ok () S
  | a :: rest, i, S =>
    match int_incr i with
    | none => .undefined
    | some i1 =>
      if N ≤ (snprintf_table i).2 then
        luaL_error S "Function lualibvoikko_analyze_word_cstr: value of N is too small."
      else
        (attribute_loop a a.keys (lua_newtable (lua_pushstring S (snprintf_table i).1))).bind
          fun _ S1 => (lua_settable S1 (-3)).bind fun _ S2 => analysis_loop rest i1 S2

/-- Calls `voikkoAnalyzeWordCstr (handle, word)`. -/
def lualibvoikko_analyze_word_cstr (lib : Libvoikko) (S : State) : Result Nat :=
  (luaL_checkstring S 1).bind fun word S1 =>
    (get_handle S1).bind fun handle S2 =>
      match lib.voikkoAnalyzeWordCstr handle word with
      | some analysis =>
        (analysis_loop analysis.items 1 (lua_newtable S2)).bind fun _ S3 =>
          .ok 1 (voikko_free_mor_analysis S3 (some analysis.addr))
      | none => .ok 0 (voikko_free_mor_analysis S2 none)

/-- Calls `voikkoListSupportedSpellingLanguages (path)`. -/
def lualibvoikko_list_supported_spelling_languages (lib : Libvoikko) (S : State) : Result Nat :=
  get_list S lib.voikkoListSupportedSpellingLanguages

/-- Calls `voikkoListSupportedHyphenationLanguages (path)`. -/
def lualibvoikko_list_supported_hyphenation_languages (lib : Libvoikko) (S : State) :
    Result Nat :=
  get_list S lib.voikkoListSupportedHyphenationLanguages

/-- Calls `voikkoListSupportedGrammarCheckingLanguages (path)`. -/
def lualibvoikko_list_supported_grammar_checking_languages (lib : Libvoikko) (S : State) :
    Result Nat :=
  get_list S lib.voikkoListSupportedGrammarCheckingLanguages

/-- Calls `voikkoGetAttributeValues (handle, attributeName)`. -/
def lualibvoikko_get_attribute_values (lib : Libvoikko) (S : State) : Result Nat :=
  get_list2 S lib.voikkoGetAttributeValues

/-! ## Auxiliary definitions used in the statements -/

/-- The correction table as data: native value and corrected value. -/
def correction_map : List (String × String) :=
  [("nimento", "nimentö"), ("omanto", "omanto"), ("osanto", "osanto"), ("olento", "olento"),
   ("tulento", "tulento"), ("kohdanto", "kohdanto"), ("sisaolento", "sisäolento"),
   ("sisaeronto", "sisäeronto"), ("sisatulento", "sisätulento"), ("ulkoolento", "ulko_olento"),
   ("ulkoeronto", "ulkoeronto"), ("ulkotulento", "ulkotulento"), ("vajanto", "vajanto"),
   ("seuranto", "seuranto"), ("keinonto", "keinonto"), ("kerrontosti", "kerronto_sti")]

/-- Static lookup scoped to the key `SIJAMUOTO`, with whole-string matching: the
reference behaviour `fix_value` is compared with. -/
def lookup_correction (key value : String) : String :=
  if key = "SIJAMUOTO" then
    match correction_map.lookup value with
    | some corrected => corrected
    | none => value
  else value

/-- The native strings of the correction table. -/
def matched_values : List String := correction_map.map Prod.fst

/-- The native strings the correction table respells. -/
def respelled_values : List String :=
  ["nimento", "sisaolento", "sisaeronto", "sisatulento", "ulkoolento", "kerrontosti"]

/-- The native strings the correction table matches and returns as they are. -/
def kept_values : List String :=
  ["omanto", "osanto", "olento", "tulento", "kohdanto", "ulkoeronto", "ulkotulento",
   "vajanto", "seuranto", "keinonto"]

/-- Value of a decimal digit character. -/
def digit_value (c : Char) : Nat := c.toNat - 48

/-- Number denoted by a list of decimal digits. -/
def parse_nat (cs : List Char) : Nat := cs.foldl (fun acc c => acc * 10 + digit_value c) 0

/-- The label `table<i>`. -/
def table_label (i : Int) : String := "table" ++ decimal i

/-- Reads of the native array at `addr` performed by the loop of `make_table` when
`n` strings remain and the next index is `k`: two per string, one for the terminator. -/
def copy_reads (addr : Nat) : Nat → Nat → List NativeEvent
  | 0, k => [.cstr_array_read addr k]
  | n + 1, k => .cstr_array_read addr k :: .cstr_array_read addr k :: copy_reads addr n (k + 1)

/-- The budget of the state lets `calls` memory-needing interpreter calls succeed. -/
def enough_memory (S : State) (calls : Nat) : Prop :=
  ∀ m, S.memory = some m → calls ≤ m

/-- Writes performed by the loop of `make_table` started with counter `i`. -/
def sequence_entries : List String → Int → List (LuaValue × LuaValue)
  | [], _ => []
  | s :: rest, i => (.integer i, .string s) :: sequence_entries rest (i + 1)

/-- Writes performed by the inner loop of the analysis for the keys `ks`. -/
def attribute_entries (a : voikko_mor_analysis) (ks : List String) :
    List (LuaValue × LuaValue) :=
  ks.map fun k => (.string k, .string (fix_value k ((a.value_cstr k).getD "")))

/-- Writes to the outer table performed by the loop over the analyses, started with
counter `i` when the next table object to be created has reference `r`. -/
def analysis_entries : List voikko_mor_analysis → Int → Nat → List (LuaValue × LuaValue)
  | [], _, _ => []
  | _ :: rest, i, r => (.string (table_label i), .table r) :: analysis_entries rest (i + 1) (r + 1)

/-- A table is the sequence `items`: element `j + 1` is `items[j]` and no other key is bound. -/
def holds_sequence (t : Table) (items : List String) : Prop :=
  (∀ (j : Nat) (s : String), items[j]? = some s → rawget t (.integer (j + 1)) = .string s) ∧
  (∀ key, rawget t key ≠ .nil → ∃ j : Nat, j < items.length ∧ key = .integer (j + 1))

/-- A table is the mapping of one analysis: exactly the supplied keys are bound,
each to the corrected native value. -/
def holds_analysis (t : Table) (a : voikko_mor_analysis) : Prop :=
  (∀ key, rawget t key ≠ .nil ↔ ∃ k ∈ a.keys, key = .string k) ∧
  (∀ k ∈ a.keys, ∀ v, a.value_cstr k = some v → rawget t (.string k) = .string (fix_value k v))

/-- Arrays handed out and not yet released once the trace has been replayed over the
outstanding arrays `live`; `none` when an array that is not outstanding is read or
released. -/
def outstanding : List NativeEvent → List Nat → Option (List Nat)
  | [], live => some live
  | .cstr_array_returned a :: es, live => outstanding es (a :: live)
  | .cstr_array_read a _ :: es, live => if a ∈ live then outstanding es live else none
  | .voikkoFreeCstrArray a :: es, live =>
    if a ∈ live then outstanding es (live.erase a) else none
  | _ :: es, live => outstanding es live

/-- A list-valued query: one of the two templates with its native function. -/
inductive ListQuery where
  | by_path (f : String → Option CstrArray)
  | by_handle (f : Pointer → String → Option CstrArray)

/-- Run one list-valued query. -/
def run_query (q : ListQuery) (S : State) : Result Nat :=
  match q with
  | .by_path f => get_list S f
  | .by_handle f => get_list2 S f

/-- Invoke queries one after the other, each with its own argument stack and memory
budget, on the registry, table objects and trace the previous one left. -/
def run_queries : List (ListQuery × List LuaValue × Option Nat) → State → Option State
  | [], S => some S
  | (q, args, budget) :: rest, S =>
    match run_query q { S with stack := args, memory := budget } with
    | .ok _ S1 => run_queries rest S1
    | .raised _ S1 => run_queries rest S1
    | .undefined => none

/-- Every invocation of the run returned normally. -/
def all_returned : List (ListQuery × List LuaValue × Option Nat) → State → Bool
  | [], _ => true
  | (q, args, budget) :: rest, S =>
    match run_query q { S with stack := args, memory := budget } with
    | .ok _ S1 => all_returned rest S1
    | _ => false

/-- Every array a native function of the query returns has fewer than `INT_MAX` strings. -/
def short_arrays (q : ListQuery) : Prop :=
  match q with
  | .by_path f => ∀ s list, f s = some list → (list.items.length : Int) < INT_MAX
  | .by_handle f => ∀ h s list, f h s = some list → (list.items.length : Int) < INT_MAX

/-- The handle `get_handle` finds: the address stored in the registry under
`&HANDLE`, null when the slot holds anything but a light userdata. -/
def registry_handle (S : State) : Pointer :=
  match rawget S.registry (.lightuserdata HANDLE) with
  | .lightuserdata p => p
  | _ => .null

/-- Releases of attribute values performed by the inner loop of the analysis. -/
def value_releases (a : voikko_mor_analysis) (ks : List String) : List NativeEvent :=
  ks.map fun k => .voikko_free_mor_analysis_value_cstr ((a.value_cstr k).getD "")

/-- Releases of attribute values performed by the loop over the analyses. -/
def analysis_releases : List voikko_mor_analysis → List NativeEvent
  | [] => []
  | a :: rest => value_releases a a.keys ++ analysis_releases rest

/-- The mapping built for one analysis. -/
def analysis_table (a : voikko_mor_analysis) : Table :=
  rawset_list [] (attribute_entries a a.keys)

/-- Every key an analysis supplies has a value (no null pointer is returned for it). -/
def values_present (a : voikko_mor_analysis) : Prop :=
  ∀ k ∈ a.keys, a.value_cstr k ≠ none

/-! ## Concrete inputs -/

/-- A call frame whose first argument is the word `kissa`, with a handle in the registry. -/
def sample_state : State :=
  { stack := [.string "kissa"]
    registry := [(.lightuserdata HANDLE, .lightuserdata (.heap 7))]
    heap := []
    position := "main.lua:3: "
    trace := []
    memory := none }

/-- The same call frame when the interpreter can serve three more memory-needing calls. -/
def sample_state_low_memory : State :=
  { sample_state with memory := some 3 }

/-- A call frame for `voikko_init ("xx", "/usr/lib/voikko")`, made at line 3 of `main.lua`. -/
def sample_init_state : State :=
  { stack := [.string "/usr/lib/voikko", .string "xx"]
    registry := []
    heap := []
    position := "main.lua:3: "
    trace := []
    memory := none }

/-- An analysis with two attributes. -/
def sample_analysis : voikko_mor_analysis :=
  { keys := ["CLASS", "SIJAMUOTO"]
    value_cstr := fun k => if k = "SIJAMUOTO" then some "nimento" else some "nimisana" }

/-- An analysis with one attribute. -/
def sample_analysis_verb : voikko_mor_analysis :=
  { keys := ["CLASS"]
    value_cstr := fun _ => some "teonsana" }

/-- An analysis with three attributes. -/
def sample_analysis_genitive : voikko_mor_analysis :=
  { keys := ["BASEFORM", "CLASS", "SIJAMUOTO"]
    value_cstr := fun k =>
      if k = "SIJAMUOTO" then some "omanto"
      else if k = "BASEFORM" then some "kissa" else some "nimisana" }

/-- A native library whose entry points return the given results. -/
def sample_lib (init : Option String × Pointer) (list : Option CstrArray)
    (analysis : Option MorAnalysisArray) : Libvoikko :=
  { voikkoInit := fun _ _ => init
    voikkoSuggestCstr := fun _ _ => list
    voikkoGetAttributeValues := fun _ _ => list
    voikkoListSupportedSpellingLanguages := fun _ => list
    voikkoListSupportedHyphenationLanguages := fun _ => list
    voikkoListSupportedGrammarCheckingLanguages := fun _ => list
    voikkoAnalyzeWordCstr := fun _ _ => analysis }

/-! ## Tables -/

theorem rawget_rawset_same (t : Table) (k v : LuaValue) (hv : v ≠ .nil) :
    rawget (rawset t k v) k = v := by
  induction t with
  | nil => simp [rawset, rawget, hv]
  | cons e t ih =>
    obtain ⟨k1, v1⟩ := e
    by_cases h : k1 = k
    · simp [rawset, rawget, h, hv]
    · simp [rawset, rawget, h, ih]

theorem rawget_rawset_other (t : Table) (k v key : LuaValue) (h : key ≠ k) :
    rawget (rawset t k v) key = rawget t key := by
  induction t with
  | nil =>
    by_cases hv : v = .nil
    · simp [rawset, rawget, hv]
    · simp [rawset, rawget, hv, Ne.symm h]
  | cons e t ih =>
    obtain ⟨k1, v1⟩ := e
    by_cases h1 : k1 = k
    · subst h1
      by_cases hv : v = .nil
      · simp [rawset, rawget, hv, Ne.symm h]
      · simp [rawset, rawget, hv, Ne.symm h]
    · by_cases h2 : k1 = key
      · subst h2
        simp [rawset, rawget, h1]
      · simp [rawset, rawget, h1, h2, ih]

theorem rawset_list_nil (t : Table) : rawset_list t [] = t := rfl

theorem rawset_list_cons (t : Table) (kv : LuaValue × LuaValue) (kvs : List (LuaValue × LuaValue)) :
    rawset_list t (kv :: kvs) = rawset_list (rawset t kv.1 kv.2) kvs := rfl

theorem rawset_list_append (t : Table) (xs ys : List (LuaValue × LuaValue)) :
    rawset_list t (xs ++ ys) = rawset_list (rawset_list t xs) ys := by
  simp [rawset_list, List.foldl_append]

theorem rawget_rawset_list_absent (kvs : List (LuaValue × LuaValue)) :
    ∀ (t : Table) (key : LuaValue), (∀ kv ∈ kvs, kv.1 ≠ key) →
      rawget (rawset_list t kvs) key = rawget t key := by
  induction kvs with
  | nil => intro t key _; rfl
  | cons kv kvs ih =>
    intro t key h
    rw [rawset_list_cons, ih _ _ (fun e he => h e (List.mem_cons_of_mem _ he))]
    exact rawget_rawset_other t _ _ _ (Ne.symm (h kv (List.mem_cons_self _ _)))

theorem rawget_rawset_list_present (kvs : List (LuaValue × LuaValue)) :
    ∀ (t : Table) (k v : LuaValue), (k, v) ∈ kvs → v ≠ .nil →
      (∀ kv ∈ kvs, kv.1 = k → kv.2 = v) → rawget (rawset_list t kvs) k = v := by
  induction kvs with
  | nil => intro t k v h; simp at h
  | cons kv kvs ih =>
    intro t k v hmem hv hfun
    rw [rawset_list_cons]
    by_cases hlater : ∃ e ∈ kvs, e.1 = k
    · obtain ⟨e, he, hek⟩ := hlater
      have hev : e.2 = v := hfun e (List.mem_cons_of_mem _ he) hek
      have hin : (k, v) ∈ kvs := by
        have : e = (k, v) := Prod.ext hek hev
        rw [← this]; exact he
      exact ih _ k v hin hv (fun e2 he2 => hfun e2 (List.mem_cons_of_mem _ he2))
    · have hhead : kv = (k, v) := by
        rcases List.mem_cons.mp hmem with h1 | h1
        · exact h1.symm
        · exact absurd ⟨(k, v), h1, rfl⟩ hlater
      rw [rawget_rawset_list_absent kvs _ k (fun e he hek => hlater ⟨e, he, hek⟩), hhead]
      exact rawget_rawset_same t k v hv

theorem rawget_rawset_list_bound (kvs : List (LuaValue × LuaValue)) (key : LuaValue)
    (h : rawget (rawset_list [] kvs) key ≠ .nil) : ∃ kv ∈ kvs, kv.1 = key := by
  by_contra hc
  apply h
  rw [rawget_rawset_list_absent kvs [] key (fun kv hkv hk => hc ⟨kv, hkv, hk⟩)]
  rfl

/-! ## The correction table -/

theorem lookup_cons_ne (v a b : String) (l : List (String × String)) (h : ¬ v = a) :
    List.lookup v ((a, b) :: l) = List.lookup v l := by
  have hb : (v == a) = false := by simpa using h
  simp only [List.lookup, hb]

theorem lookup_some_mem (l : List (String × String)) (v w : String)
    (h : l.lookup v = some w) : (v, w) ∈ l := by
  induction l with
  | nil => simp [List.lookup] at h
  | cons e l ih =>
    obtain ⟨a, b⟩ := e
    by_cases hva : v = a
    · subst hva
      simp only [List.lookup, beq_self_eq_true, Option.some.injEq] at h
      subst h
      exact List.mem_cons_self _ _
    · rw [lookup_cons_ne v a b l hva] at h
      exact List.mem_cons_of_mem _ (ih h)

theorem lookup_none_not_mem (l : List (String × String)) (v : String)
    (h : l.lookup v = none) : v ∉ l.map Prod.fst := by
  induction l with
  | nil => simp
  | cons e l ih =>
    obtain ⟨a, b⟩ := e
    by_cases hva : v = a
    · subst hva
      simp [List.lookup] at h
    · rw [lookup_cons_ne v a b l hva] at h
      simp only [List.map_cons, List.mem_cons, not_or]
      exact ⟨hva, ih h⟩

theorem not_mem_lookup_none (l : List (String × String)) (v : String)
    (h : v ∉ l.map Prod.fst) : l.lookup v = none := by
  induction l with
  | nil => rfl
  | cons e l ih =>
    obtain ⟨a, b⟩ := e
    simp only [List.map_cons, List.mem_cons, not_or] at h
    rw [lookup_cons_ne v a b l h.1]
    exact ih h.2

theorem fix_value_other_key (k v : String) (hk : k ≠ "SIJAMUOTO") : fix_value k v = v := by
  unfold fix_value
  rw [if_neg hk]

theorem fix_value_sijamuoto (v : String) :
    fix_value "SIJAMUOTO" v = lookup_correction "SIJAMUOTO" v := by
  unfold fix_value lookup_correction correction_map
  rw [if_pos rfl, if_pos rfl]
  by_cases h0 : v = "nimento"
  · subst h0; decide
  rw [if_neg h0, lookup_cons_ne v _ _ _ h0]
  by_cases h1 : v = "omanto"
  · subst h1; decide
  rw [if_neg h1, lookup_cons_ne v _ _ _ h1]
  by_cases h2 : v = "osanto"
  · subst h2; decide
  rw [if_neg h2, lookup_cons_ne v _ _ _ h2]
  by_cases h3 : v = "olento"
  · subst h3; decide
  rw [if_neg h3, lookup_cons_ne v _ _ _ h3]
  by_cases h4 : v = "tulento"
  · subst h4; decide
  rw [if_neg h4, lookup_cons_ne v _ _ _ h4]
  by_cases h5 : v = "kohdanto"
  · subst h5; decide
  rw [if_neg h5, lookup_cons_ne v _ _ _ h5]
  by_cases h6 : v = "sisaolento"
  · subst h6; decide
  rw [if_neg h6, lookup_cons_ne v _ _ _ h6]
  by_cases h7 : v = "sisaeronto"
  · subst h7; decide
  rw [if_neg h7, lookup_cons_ne v _ _ _ h7]
  by_cases h8 : v = "sisatulento"
  · subst h8; decide
  rw [if_neg h8, lookup_cons_ne v _ _ _ h8]
  by_cases h9 : v = "ulkoolento"
  · subst h9; decide
  rw [if_neg h9, lookup_cons_ne v _ _ _ h9]
  by_cases h10 : v = "ulkoeronto"
  · subst h10; decide
  rw [if_neg h10, lookup_cons_ne v _ _ _ h10]
  by_cases h11 : v = "ulkotulento"
  · subst h11; decide
  rw [if_neg h11, lookup_cons_ne v _ _ _ h11]
  by_cases h12 : v = "vajanto"
  · subst h12; decide
  rw [if_neg h12, lookup_cons_ne v _ _ _ h12]
  by_cases h13 : v = "seuranto"
  · subst h13; decide
  rw [if_neg h13, lookup_cons_ne v _ _ _ h13]
  by_cases h14 : v = "keinonto"
  · subst h14; decide
  rw [if_neg h14, lookup_cons_ne v _ _ _ h14]
  by_cases h15 : v = "kerrontosti"
  · subst h15; decide
  rw [if_neg h15, lookup_cons_ne v _ _ _ h15]
  rfl

theorem fix_value_refines (k v : String) : fix_value k v = lookup_correction k v := by
  by_cases hk : k = "SIJAMUOTO"
  · subst hk; exact fix_value_sijamuoto v
  · rw [fix_value_other_key k v hk]
    unfold lookup_correction
    rw [if_neg hk]

theorem correction_map_lookup :
    ∀ p ∈ correction_map, correction_map.lookup p.1 = some p.2 := by decide

theorem correction_map_fixed :
    ∀ p ∈ correction_map, fix_value "SIJAMUOTO" p.2 = p.2 := by decide

theorem correction_map_results :
    ∀ p ∈ correction_map, p.2 ∉ respelled_values := by decide

theorem respelled_matched : ∀ x ∈ respelled_values, x ∈ matched_values := by decide

theorem respelled_rewritten : ∀ x ∈ respelled_values,
    fix_value "SIJAMUOTO" x ≠ x ∧ (x, fix_value "SIJAMUOTO" x) ∈ correction_map := by
  decide

theorem kept_unchanged : ∀ x ∈ kept_values,
    fix_value "SIJAMUOTO" x = x ∧ x ∈ matched_values := by
  decide

theorem matched_split : ∀ x ∈ matched_values, x ∈ respelled_values ∨ x ∈ kept_values := by
  decide

theorem fix_value_of_entry (v w : String) (h : (v, w) ∈ correction_map) :
    fix_value "SIJAMUOTO" v = w := by
  rw [fix_value_sijamuoto]
  unfold lookup_correction
  rw [if_pos rfl, correction_map_lookup (v, w) h]

theorem fix_value_unmatched (v : String) (h : v ∉ matched_values) :
    fix_value "SIJAMUOTO" v = v := by
  rw [fix_value_sijamuoto]
  unfold lookup_correction
  rw [if_pos rfl, not_mem_lookup_none correction_map v h]

theorem fix_value_entry_or_unmatched (v : String) :
    (∃ w, (v, w) ∈ correction_map ∧ fix_value "SIJAMUOTO" v = w) ∨
      (v ∉ matched_values ∧ fix_value "SIJAMUOTO" v = v) := by
  cases hl : correction_map.lookup v with
  | some w =>
    have hm := lookup_some_mem correction_map v w hl
    exact Or.inl ⟨w, hm, fix_value_of_entry v w hm⟩
  | none =>
    have hm := lookup_none_not_mem correction_map v hl
    exact Or.inr ⟨hm, fix_value_unmatched v hm⟩

/-! ## Claims about `fix_value` -/

/-- C2, counterexample: the native value `omanto` of `SIJAMUOTO` is exposed as
`omanto`, which is one of the strings the correction table matches against. -/
theorem fix_value_omanto_still_matched :
    fix_value "SIJAMUOTO" "omanto" = "omanto" ∧
      fix_value "SIJAMUOTO" "omanto" ∈ matched_values := by
  decide

/-- C2, amended: for every attribute value `v`, the value exposed for the key
`SIJAMUOTO` is never one of the six native strings the table respells (nimento,
sisaolento, sisaeronto, sisatulento, ulkoolento, kerrontosti): each of these six is
rewritten to a different, corrected form, the one its row of the table gives; the
other ten strings the table matches (omanto, osanto, olento, tulento, kohdanto,
ulkoeronto, ulkotulento, vajanto, seuranto, keinonto) are mapped to themselves and
exposed unchanged. -/
theorem fix_value_never_respelled_native (v : String) :
    fix_value "SIJAMUOTO" v ∉ respelled_values ∧
    (v ∈ respelled_values →
      fix_value "SIJAMUOTO" v ≠ v ∧ (v, fix_value "SIJAMUOTO" v) ∈ correction_map) ∧
    (v ∈ kept_values → fix_value "SIJAMUOTO" v = v ∧ v ∈ matched_values) ∧
    (v ∈ matched_values → v ∈ respelled_values ∨ v ∈ kept_values) ∧
    (v ∉ matched_values → fix_value "SIJAMUOTO" v = v) ∧
    correction_map.filter (fun p => decide (p.1 ≠ p.2)) =
      [("nimento", "nimentö"), ("sisaolento", "sisäolento"), ("sisaeronto", "sisäeronto"),
       ("sisatulento", "sisätulento"), ("ulkoolento", "ulko_olento"),
       ("kerrontosti", "kerronto_sti")] := by
  refine ⟨?_, fun h => respelled_rewritten v h, fun h => kept_unchanged v h,
    fun h => matched_split v h, fun h => fix_value_unmatched v h, by decide⟩
  rcases fix_value_entry_or_unmatched v with ⟨w, hm, hw⟩ | ⟨hm, hw⟩
  · rw [hw]
    exact correction_map_results (v, w) hm
  · rw [hw]
    exact fun h => hm (respelled_matched v h)

/-- C2, witness: the native value `nimento` is respelled, the native value `omanto`
is exposed as it is. -/
theorem fix_value_never_respelled_native_witness :
    (fix_value "SIJAMUOTO" "nimento" ≠ "nimento" ∧
      ("nimento", fix_value "SIJAMUOTO" "nimento") ∈ correction_map) ∧
    (fix_value "SIJAMUOTO" "omanto" = "omanto" ∧ "omanto" ∈ matched_values) :=
  ⟨(fix_value_never_respelled_native "nimento").2.1 (by decide),
   (fix_value_never_respelled_native "omanto").2.2.1 (by decide)⟩

/-- C3: `fix_value` equals the static lookup scoped to the key `SIJAMUOTO` with
whole-string matching: a value that is a key of the correction map is sent to the
mapped value (the six respellings in particular), and in every other case (another
key, or a value not in the map) the value is returned unchanged. -/
theorem fix_value_is_static_lookup (k v : String) :
    fix_value k v = lookup_correction k v ∧
    (k = "SIJAMUOTO" → ∀ w, (v, w) ∈ correction_map → fix_value k v = w) ∧
    (k ≠ "SIJAMUOTO" ∨ v ∉ matched_values → fix_value k v = v) ∧
    (fix_value "SIJAMUOTO" "nimento" = "nimentö" ∧
      fix_value "SIJAMUOTO" "sisaolento" = "sisäolento" ∧
      fix_value "SIJAMUOTO" "sisaeronto" = "sisäeronto" ∧
      fix_value "SIJAMUOTO" "sisatulento" = "sisätulento" ∧
      fix_value "SIJAMUOTO" "ulkoolento" = "ulko_olento" ∧
      fix_value "SIJAMUOTO" "kerrontosti" = "kerronto_sti") := by
  refine ⟨fix_value_refines k v, ?_, ?_, by decide⟩
  · intro hk w hw
    subst hk
    exact fix_value_of_entry v w hw
  · intro h
    by_cases hk : k = "SIJAMUOTO"
    · subst hk
      rcases h with h | h
      · exact absurd rfl h
      · exact fix_value_unmatched v h
    · exact fix_value_other_key k v hk

/-- C3, witness: the entry `ulkoolento -> ulko_olento` of the map, under the key `SIJAMUOTO`. -/
theorem fix_value_is_static_lookup_witness :
    fix_value "SIJAMUOTO" "ulkoolento" = "ulko_olento" ∧
      fix_value "SIJAMUOTO" "kissa" = "kissa" :=
  ⟨(fix_value_is_static_lookup "SIJAMUOTO" "ulkoolento").2.1 rfl "ulko_olento" (by decide),
   (fix_value_is_static_lookup "SIJAMUOTO" "kissa").2.2.1 (Or.inr (by decide))⟩

/-- C10: `fix_value` is idempotent in its value argument. -/
theorem fix_value_idempotent (k v : String) :
    fix_value k (fix_value k v) = fix_value k v := by
  by_cases hk : k = "SIJAMUOTO"
  · subst hk
    rcases fix_value_entry_or_unmatched v with ⟨w, hm, hw⟩ | ⟨_, hw⟩
    · rw [hw]
      exact correction_map_fixed (v, w) hm
    · rw [hw, hw]
  · rw [fix_value_other_key k v hk, fix_value_other_key k v hk]

/-! ## Decimal text and the 32-bit counter -/

theorem digit_value_digitChar (d : Nat) (h : d < 10) : digit_value (Nat.digitChar d) = d := by
  interval_cases d <;> rfl

theorem digitChar_ne_minus (d : Nat) (h : d < 10) : Nat.digitChar d ≠ '-' := by
  interval_cases d <;> decide

theorem parse_toDigitsCore (fuel : Nat) : ∀ (n : Nat) (ds : List Char), n < fuel →
    (Nat.toDigitsCore 10 fuel n ds).foldl (fun acc c => acc * 10 + digit_value c) 0
      = ds.foldl (fun acc c => acc * 10 + digit_value c) n := by
  induction fuel with
  | zero => intro n ds h; omega
  | succ fuel ih =>
    intro n ds h
    simp only [Nat.toDigitsCore]
    split_ifs with h0
    · simp only [List.foldl_cons, digit_value_digitChar (n % 10) (Nat.mod_lt _ (by decide))]
      congr 1
      omega
    · rw [ih (n / 10) _ (by omega)]
      simp only [List.foldl_cons, digit_value_digitChar (n % 10) (Nat.mod_lt _ (by decide))]
      congr 1
      omega

theorem parse_nat_repr (n : Nat) : parse_nat (Nat.repr n).data = n := by
  simp only [Nat.repr, Nat.toDigits, parse_nat, List.asString]
  rw [parse_toDigitsCore (n + 1) n [] (by omega)]
  rfl

theorem minus_not_mem_toDigitsCore (fuel : Nat) : ∀ (n : Nat) (ds : List Char), '-' ∉ ds →
    '-' ∉ Nat.toDigitsCore 10 fuel n ds := by
  induction fuel with
  | zero => intro n ds h; simpa [Nat.toDigitsCore] using h
  | succ fuel ih =>
    intro n ds h
    have hc : '-' ∉ Nat.digitChar (n % 10) :: ds := by
      simp only [List.mem_cons, not_or]
      exact ⟨fun e => digitChar_ne_minus _ (Nat.mod_lt _ (by decide)) e.symm, h⟩
    simp only [Nat.toDigitsCore]
    split_ifs with h0
    · exact hc
    · exact ih _ _ hc

theorem minus_not_mem_repr (n : Nat) : '-' ∉ (Nat.repr n).data := by
  simp only [Nat.repr, Nat.toDigits, List.asString]
  exact minus_not_mem_toDigitsCore _ _ _ (by simp)

theorem repr_injective (m n : Nat) (h : Nat.repr m = Nat.repr n) : m = n := by
  rw [← parse_nat_repr m, ← parse_nat_repr n, h]

theorem decimal_injective (i j : Int) (h : decimal i = decimal j) : i = j := by
  unfold decimal at h
  split_ifs at h with hi hj hj
  · have h1 := congrArg String.data h
    simp only [String.data_append, List.append_cancel_left_eq] at h1
    have := repr_injective _ _ (String.ext h1)
    omega
  · exfalso
    have h1 := congrArg String.data h
    have h2 := minus_not_mem_repr j.natAbs
    rw [← h1] at h2
    simp at h2
  · exfalso
    have h1 := congrArg String.data h
    have h2 := minus_not_mem_repr i.natAbs
    rw [h1] at h2
    simp at h2
  · have := repr_injective _ _ h
    omega

theorem decimal_length (i : Int) (h1 : -2147483648 ≤ i) (h2 : i < 2147483648) :
    (decimal i).length ≤ 11 := by
  have hr : (Nat.repr i.natAbs).length ≤ 10 := Nat.repr_length _ 10 (by decide) (by omega)
  unfold decimal
  split_ifs
  · rw [String.length_append]
    have : "-".length = 1 := by decide
    omega
  · omega

theorem int_incr_some (i : Int) (h : i < 2147483647) : int_incr i = some (i + 1) := by
  unfold int_incr INT_MAX
  rw [if_pos h]

theorem int_incr_eq_some (i i1 : Int) (h : int_incr i = some i1) :
    i < 2147483647 ∧ i1 = i + 1 := by
  unfold int_incr INT_MAX at h
  split_ifs at h with hlt
  · simp only [Option.some.injEq] at h
    exact ⟨hlt, h.symm⟩

theorem int_incr_eq_none (i : Int) (h : int_incr i = none) : 2147483647 ≤ i := by
  unfold int_incr INT_MAX at h
  split_ifs at h with hlt
  omega

theorem table_label_length (i : Int) (h1 : -2147483648 ≤ i) (h2 : i < 2147483648) :
    (table_label i).length ≤ 16 := by
  unfold table_label
  rw [String.length_append]
  have h5 : "table".length = 5 := by decide
  have := decimal_length i h1 h2
  omega

theorem table_label_injective (i j : Int) (h : table_label i = table_label j) : i = j := by
  unfold table_label at h
  have h1 := congrArg String.data h
  simp only [String.data_append, List.append_cancel_left_eq] at h1
  exact decimal_injective i j (String.ext h1)

theorem snprintf_table_length (i : Int) (h1 : -2147483648 ≤ i) (h2 : i < 2147483648) :
    (snprintf_table i).2 ≤ 16 :=
  table_label_length i h1 h2

theorem snprintf_table_buffer (i : Int) (h1 : -2147483648 ≤ i) (h2 : i < 2147483648) :
    (snprintf_table i).1 = table_label i := by
  have hl : (table_label i).data.length ≤ 16 := table_label_length i h1 h2
  unfold snprintf_table
  show String.mk ((table_label i).data.take (N - 1)) = table_label i
  rw [List.take_of_length_le (by unfold N; omega)]

/-! ## Stack indices -/

theorem index2table_registry (S : State) : index2table S LUA_REGISTRYINDEX = some .registry := by
  unfold index2table
  rw [if_pos rfl]

theorem index2table_below_top (S : State) (a : LuaValue) (o : Nat) (rest : List LuaValue)
    (hs : S.stack = a :: .table o :: rest) (ho : o < S.heap.length) :
    index2table S (-2) = some (.object o) := by
  simp [index2table, index2value, LUA_REGISTRYINDEX, hs, ho]

theorem index2table_third (S : State) (a b : LuaValue) (o : Nat) (rest : List LuaValue)
    (hs : S.stack = a :: b :: .table o :: rest) (ho : o < S.heap.length) :
    index2table S (-3) = some (.object o) := by
  simp [index2table, index2value, LUA_REGISTRYINDEX, hs, ho]

theorem set_getD_self (heap : List Table) (o : Nat) : heap.set o (heap.getD o []) = heap := by
  induction heap generalizing o with
  | nil => simp
  | cons t heap ih =>
    cases o with
    | zero => simp
    | succ o => simpa using ih o

theorem getD_set_same (heap : List Table) (o : Nat) (t : Table) (h : o < heap.length) :
    (heap.set o t).getD o [] = t := by
  simp [List.getD_eq_getElem?_getD, List.getElem?_set, h]

theorem set_length_append (l : List Table) (a b : Table) : (l ++ [a]).set l.length b = l ++ [b] := by
  induction l with
  | nil => rfl
  | cons t l ih => simp [ih]

theorem getD_length_append (l : List Table) (a : Table) : (l ++ [a]).getD l.length [] = a := by
  induction l with
  | nil => rfl
  | cons t l ih => simp

theorem getD_append_left (l : List Table) (a : Table) (o : Nat) (h : o < l.length) :
    (l ++ [a]).getD o [] = l.getD o [] := by
  simp [List.getD_eq_getElem?_getD, List.getElem?_append_left h]

/-! ## The loop of `make_table` -/

theorem lua_alloc_cases (S : State) :
    (lua_alloc S = .raised .not_enough_memory S ∧ S.memory = some 0) ∨
      ∃ m : Option Nat, lua_alloc S = .ok () { S with memory := m } := by
  unfold lua_alloc
  cases hm : S.memory with
  | none =>
    refine Or.inr ⟨none, ?_⟩
    simp only
    rw [← hm]
  | some m =>
    cases m with
    | zero => exact Or.inl ⟨rfl, rfl⟩
    | succ m => exact Or.inr ⟨some m, rfl⟩

theorem lua_alloc_enough (S : State) (n : Nat) (h : enough_memory S (n + 1)) :
    ∃ S1 : State, lua_alloc S = .ok () S1 ∧ S1.stack = S.stack ∧ S1.registry = S.registry ∧
      S1.heap = S.heap ∧ S1.position = S.position ∧ S1.trace = S.trace ∧
      enough_memory S1 n := by
  unfold lua_alloc
  cases hm : S.memory with
  | none =>
    refine ⟨S, rfl, rfl, rfl, rfl, rfl, rfl, ?_⟩
    intro m hm2
    rw [hm] at hm2
    simp at hm2
  | some m =>
    cases m with
    | zero =>
      have := h 0 hm
      omega
    | succ m =>
      refine ⟨{ S with memory := some m }, rfl, rfl, rfl, rfl, rfl, rfl, ?_⟩
      intro m2 hm2
      simp only [Option.some.injEq] at hm2
      have := h (m + 1) hm
      omega

theorem lua_rawseti_below_top (S : State) (v : LuaValue) (o : Nat) (rest : List LuaValue)
    (n : Int) (hs : S.stack = v :: .table o :: rest) (ho : o < S.heap.length) :
    lua_rawseti S (-2) n = .ok ()
      { S with
        stack := .table o :: rest
        heap := (S.heap.set o (rawset (S.heap.getD o []) (.integer n) v)) } := by
  have hidx := index2table_below_top S v o rest hs ho
  simp only [lua_rawseti, hs, hidx, write_table, read_table]

/-- What the loop of `make_table` can do on a stack whose top is the table `o`: finish
with the entries written and every element read, be abandoned by the memory error
after reads only, or meet the overflow of the counter. -/
theorem make_table_loop_outcome (addr : Nat) (items : List String) :
    ∀ (k : Nat) (i : Int) (S : State) (o : Nat) (rest : List LuaValue),
      S.stack = .table o :: rest → o < S.heap.length →
      (∃ m : Option Nat, make_table_loop addr items k i S = .ok ()
        { S with
          heap := (S.heap.set o (rawset_list (S.heap.getD o []) (sequence_entries items i)))
          trace := S.trace ++ copy_reads addr items.length k
          memory := m }) ∨
      (∃ (S1 : State) (reads : List NativeEvent),
        make_table_loop addr items k i S = .raised .not_enough_memory S1 ∧
        S1.trace = S.trace ++ reads ∧ ∀ ev ∈ reads, ∃ j, ev = .cstr_array_read addr j) ∨
      (make_table_loop addr items k i S = .undefined ∧ 2147483647 < i + items.length) := by
  induction items with
  | nil =>
    intro k i S o rest _ _
    refine Or.inl ⟨S.memory, ?_⟩
    simp only [make_table_loop, read_cstr_array, sequence_entries, rawset_list_nil,
      set_getD_self, copy_reads, List.length_nil]
  | cons s items ih =>
    intro k i S o rest hs ho
    have hreads : ∀ ev ∈ [NativeEvent.cstr_array_read addr k, .cstr_array_read addr k],
        ∃ j, ev = NativeEvent.cstr_array_read addr j := by
      intro ev hev
      simp only [List.mem_cons, List.mem_singleton, List.mem_nil_iff, or_false, or_self] at hev
      exact ⟨k, hev⟩
    unfold make_table_loop
    rcases lua_alloc_cases (read_cstr_array (read_cstr_array S addr k) addr k)
      with ⟨h1, _⟩ | ⟨m1, h1⟩
    · refine Or.inr (Or.inl ⟨read_cstr_array (read_cstr_array S addr k) addr k,
        [.cstr_array_read addr k, .cstr_array_read addr k], ?_, ?_, hreads⟩)
      · simp only [h1, Result.bind]
      · simp [read_cstr_array]
    · rw [h1]
      simp only [Result.bind]
      cases hinc : int_incr i with
      | none =>
        refine Or.inr (Or.inr ⟨rfl, ?_⟩)
        have := int_incr_eq_none i hinc
        simp only [List.length_cons, Nat.cast_add, Nat.cast_one]
        omega
      | some i1 =>
        obtain ⟨_, hi1⟩ := int_incr_eq_some i i1 hinc
        subst hi1
        simp only
        rcases lua_alloc_cases (lua_pushstring
          { read_cstr_array (read_cstr_array S addr k) addr k with memory := m1 } s)
          with ⟨h2, _⟩ | ⟨m2, h2⟩
        · refine Or.inr (Or.inl
            ⟨lua_pushstring
              { read_cstr_array (read_cstr_array S addr k) addr k with memory := m1 } s,
              [.cstr_array_read addr k, .cstr_array_read addr k], ?_, ?_, hreads⟩)
          · simp only [h2, Result.bind]
          · simp [read_cstr_array, lua_pushstring]
        · rw [h2]
          simp only [Result.bind]
          rw [lua_rawseti_below_top _ (.string s) o rest i
            (by simp [lua_pushstring, read_cstr_array, hs])
            (by simpa [lua_pushstring, read_cstr_array] using ho)]
          simp only [Result.bind]
          rcases ih (k + 1) (i + 1)
            { stack := .table o :: rest
              registry := S.registry
              heap := S.heap.set o (rawset (S.heap.getD o []) (.integer i) (.string s))
              position := S.position
              trace := S.trace ++ [.cstr_array_read addr k] ++ [.cstr_array_read addr k]
              memory := m2 } o rest rfl (by simpa using ho)
            with ⟨m3, h3⟩ | ⟨S1, reads, h3, h4, h5⟩ | ⟨h3, h6⟩
          · refine Or.inl ⟨m3, ?_⟩
            simp only [lua_pushstring, read_cstr_array] at h3 ⊢
            rw [h3]
            simp only [sequence_entries, rawset_list_cons, List.set_set,
              getD_set_same _ _ _ ho, copy_reads, List.length_cons, List.append_assoc,
              List.singleton_append, List.cons_append, List.nil_append, hs]
          · refine Or.inr (Or.inl
              ⟨S1, .cstr_array_read addr k :: .cstr_array_read addr k :: reads, ?_, ?_, ?_⟩)
            · simp only [lua_pushstring, read_cstr_array] at h3 ⊢
              exact h3
            · rw [h4]
              simp
            · intro ev hev
              simp only [List.mem_cons] at hev
              rcases hev with hev | hev | hev
              · exact ⟨k, hev⟩
              · exact ⟨k, hev⟩
              · exact h5 ev hev
          · refine Or.inr (Or.inr ⟨?_, ?_⟩)
            · simp only [lua_pushstring, read_cstr_array] at h3 ⊢
              exact h3
            · simp only [List.length_cons, Nat.cast_add, Nat.cast_one]
              omega

/-- The loop of `make_table` finishes when the counter stays below `INT_MAX` and the
memory budget covers two calls per string. -/
theorem make_table_loop_defined (addr : Nat) (items : List String) :
    ∀ (k : Nat) (i : Int) (S : State) (o : Nat) (rest : List LuaValue),
      S.stack = .table o :: rest → o < S.heap.length →
      i + items.length ≤ 2147483647 → enough_memory S (2 * items.length) →
      ∃ S1 : State, make_table_loop addr items k i S = .ok () S1 := by
  induction items with
  | nil => intro k i S o rest _ _ _ _; exact ⟨_, rfl⟩
  | cons s items ih =>
    intro k i S o rest hs ho hi hm
    simp only [List.length_cons, Nat.cast_add, Nat.cast_one] at hi
    unfold make_table_loop
    obtain ⟨S1, h1, hs1, _, hh1, _, _, hm1⟩ := lua_alloc_enough
      (read_cstr_array (read_cstr_array S addr k) addr k) (2 * items.length + 1)
      (by intro m hmm; have := hm m hmm; simp only [List.length_cons] at this; omega)
    rw [h1]
    simp only [Result.bind, int_incr_some i (by omega)]
    obtain ⟨S2, h2, hs2, _, hh2, _, _, hm2⟩ := lua_alloc_enough (lua_pushstring S1 s)
      (2 * items.length) hm1
    rw [h2]
    simp only [Result.bind]
    have hstack : S2.stack = .string s :: .table o :: rest := by
      rw [hs2]
      simp [lua_pushstring, hs1, read_cstr_array, hs]
    have hheap : S2.heap = S.heap := by
      rw [hh2]
      simp [lua_pushstring, hh1, read_cstr_array]
    have hidx : index2table S2 (-2) = some (.object o) :=
      index2table_below_top _ (.string s) o rest hstack (by rw [hheap]; exact ho)
    simp only [lua_rawseti, hstack, hidx, Result.bind, write_table, read_table]
    exact ih (k + 1) (i + 1) _ o rest rfl (by simp [hheap]; exact ho) (by omega)
      (by intro m hmm; exact hm2 m hmm)

/-- What `make_table` can do: push the finished table, be abandoned by the memory
error after reads only, or meet the overflow of the counter. -/
theorem make_table_outcome (S : State) (list : CstrArray) :
    (∃ m : Option Nat, make_table S list = .ok ()
      { S with
        stack := .table S.heap.length :: S.stack
        heap := S.heap ++ [rawset_list [] (sequence_entries list.items 1)]
        trace := S.trace ++ copy_reads list.addr list.items.length 0
        memory := m }) ∨
    (∃ (S1 : State) (reads : List NativeEvent),
      make_table S list = .raised .not_enough_memory S1 ∧
      S1.trace = S.trace ++ reads ∧ ∀ ev ∈ reads, ∃ j, ev = .cstr_array_read list.addr j) ∨
    (make_table S list = .undefined ∧ 2147483647 ≤ (list.items.length : Int)) := by
  unfold make_table
  rcases lua_alloc_cases S with ⟨h1, _⟩ | ⟨m1, h1⟩
  · refine Or.inr (Or.inl ⟨S, [], ?_, by simp, by simp⟩)
    simp only [h1, Result.bind]
  · rw [h1]
    simp only [Result.bind]
    rcases make_table_loop_outcome list.addr list.items 0 1
      (lua_newtable { S with memory := m1 }) S.heap.length S.stack rfl
      (by simp [lua_newtable]) with ⟨m, h⟩ | ⟨S1, reads, h, h2, h3⟩ | ⟨h, h4⟩
    · refine Or.inl ⟨m, ?_⟩
      rw [h]
      simp only [lua_newtable, set_length_append, getD_length_append]
    · exact Or.inr (Or.inl ⟨S1, reads, h, by rw [h2]; rfl, h3⟩)
    · exact Or.inr (Or.inr ⟨h, by omega⟩)

theorem make_table_defined (S : State) (list : CstrArray)
    (hlen : (list.items.length : Int) < 2147483647)
    (hmem : enough_memory S (2 * list.items.length + 1)) :
    ∃ S1 : State, make_table S list = .ok () S1 := by
  unfold make_table
  obtain ⟨S1, h1, hs1, _, hh1, _, _, hm1⟩ := lua_alloc_enough S (2 * list.items.length) hmem
  rw [h1]
  simp only [Result.bind]
  exact make_table_loop_defined list.addr list.items 0 1 (lua_newtable S1) S1.heap.length
    S1.stack rfl (by simp [lua_newtable]) (by omega) (by intro m hm; exact hm1 m hm)

theorem sequence_entries_mem (items : List String) :
    ∀ (i : Int), ∀ kv ∈ sequence_entries items i,
      ∃ (j : Nat) (s : String), items[j]? = some s ∧
        kv = (.integer (i + j), .string s) := by
  induction items with
  | nil => intro i kv h; simp [sequence_entries] at h
  | cons s items ih =>
    intro i kv h
    simp only [sequence_entries, List.mem_cons] at h
    rcases h with h | h
    · exact ⟨0, s, by simp, by rw [h]; simp⟩
    · obtain ⟨j, s1, hj, hkv⟩ := ih (i + 1) kv h
      refine ⟨j + 1, s1, by simpa using hj, ?_⟩
      rw [hkv]
      have : i + 1 + (j : Int) = i + ((j + 1 : Nat) : Int) := by push_cast; omega
      rw [this]

theorem mem_sequence_entries (items : List String) :
    ∀ (i : Int) (j : Nat) (s : String), items[j]? = some s →
      (LuaValue.integer (i + j), LuaValue.string s) ∈ sequence_entries items i := by
  induction items with
  | nil => intro i j s h; simp at h
  | cons s0 items ih =>
    intro i j s h
    cases j with
    | zero =>
      simp only [List.getElem?_cons_zero, Option.some.injEq] at h
      subst h
      simp [sequence_entries]
    | succ j =>
      simp only [List.getElem?_cons_succ] at h
      have hm := ih (i + 1) j s h
      have : i + 1 + (j : Int) = i + ((j + 1 : Nat) : Int) := by push_cast; omega
      rw [this] at hm
      exact List.mem_cons_of_mem _ hm

theorem holds_sequence_entries (items : List String) :
    holds_sequence (rawset_list [] (sequence_entries items 1)) items := by
  constructor
  · intro j s hj
    have hm := mem_sequence_entries items 1 j s hj
    rw [show (1 : Int) + (j : Int) = (j : Int) + 1 by omega] at hm
    refine rawget_rawset_list_present _ [] _ _ hm (by simp) ?_
    intro kv hkv hk
    obtain ⟨j2, s2, hj2, rfl⟩ := sequence_entries_mem items 1 kv hkv
    simp only [LuaValue.integer.injEq] at hk
    have : j2 = j := by omega
    subst this
    rw [hj] at hj2
    simp only [Option.some.injEq] at hj2
    rw [hj2]
  · intro key hkey
    obtain ⟨kv, hkv, hk⟩ := rawget_rawset_list_bound _ key hkey
    obtain ⟨j, s, hj, rfl⟩ := sequence_entries_mem items 1 kv hkv
    have hjl : j < items.length := (List.getElem?_eq_some_iff.mp hj).1
    refine ⟨j, hjl, ?_⟩
    rw [← hk, show (1 : Int) + (j : Int) = (j : Int) + 1 by omega]

/-! ## `get_handle` and the list templates -/

theorem get_handle_eq (S : State) :
    get_handle S = .ok (registry_handle S)
      { S with stack := rawget S.registry (.lightuserdata HANDLE) :: S.stack } := by
  unfold get_handle lua_gettable
  rw [index2table_registry]
  simp only [lua_pushlightuserdata, read_table, Result.bind, lua_touserdata, index2value,
    registry_handle]
  generalize rawget S.registry (LuaValue.lightuserdata HANDLE) = v
  cases v <;> simp

theorem luaL_checkstring_frame (S S1 : State) (n : Nat) (s : String)
    (h : luaL_checkstring S n = .ok s S1) :
    S1.registry = S.registry ∧ S1.heap = S.heap ∧ S1.trace = S.trace ∧
      S1.position = S.position ∧ S1.stack.length = S.stack.length ∧
      S1.memory = S.memory := by
  unfold luaL_checkstring at h
  split at h
  · simp only [Result.ok.injEq] at h
    obtain ⟨_, rfl⟩ := h
    exact ⟨rfl, rfl, rfl, rfl, rfl, rfl⟩
  · simp only [Result.ok.injEq] at h
    obtain ⟨_, rfl⟩ := h
    exact ⟨rfl, rfl, rfl, rfl, by simp, rfl⟩
  · simp at h

theorem luaL_checkstring_defined (S : State) (n : Nat) :
    (∃ s S1, luaL_checkstring S n = .ok s S1) ∨
      luaL_checkstring S n = .raised (.bad_argument n) S := by
  unfold luaL_checkstring
  split
  · exact Or.inl ⟨_, _, rfl⟩
  · exact Or.inl ⟨_, _, rfl⟩
  · exact Or.inr rfl

/-- Trace of a list-valued query that ran to its end: the array is handed out, read
element by element up to the terminator, and released. -/
theorem get_list_outcome (S S1 : State) (s : String) (f : String → Option CstrArray)
    (list : CstrArray) (hs : luaL_checkstring S 1 = .ok s S1) (hf : f s = some list) :
    (∃ m : Option Nat, get_list S f = .ok 1
      { S1 with
        stack := .table S1.heap.length :: S1.stack
        heap := S1.heap ++ [rawset_list [] (sequence_entries list.items 1)]
        trace := S1.trace ++ (.cstr_array_returned list.addr
          :: copy_reads list.addr list.items.length 0) ++ [.voikkoFreeCstrArray list.addr]
        memory := m }) ∨
    (∃ (S2 : State) (reads : List NativeEvent),
      get_list S f = .raised .not_enough_memory S2 ∧
      S2.trace = S1.trace ++ .cstr_array_returned list.addr :: reads ∧
      ∀ ev ∈ reads, ∃ j, ev = .cstr_array_read list.addr j) ∨
    (get_list S f = .undefined ∧ 2147483647 ≤ (list.items.length : Int)) := by
  unfold get_list
  rw [hs]
  simp only [Result.bind, hf]
  rcases make_table_outcome (note_cstr_array S1 list.addr) list
    with ⟨m, h⟩ | ⟨S2, reads, h, h2, h3⟩ | ⟨h, h4⟩
  · refine Or.inl ⟨m, ?_⟩
    rw [h]
    simp only [note_cstr_array, voikkoFreeCstrArray, List.append_assoc, List.singleton_append,
      List.cons_append, List.nil_append]
  · refine Or.inr (Or.inl ⟨S2, reads, ?_, ?_, h3⟩)
    · rw [h]
    · rw [h2]
      simp [note_cstr_array]
  · refine Or.inr (Or.inr ⟨?_, h4⟩)
    rw [h]

theorem get_list_none (S S1 : State) (s : String) (f : String → Option CstrArray)
    (hs : luaL_checkstring S 1 = .ok s S1) (hf : f s = none) :
    get_list S f = .ok 0 S1 := by
  unfold get_list
  rw [hs]
  simp only [Result.bind, hf]

theorem get_list_defined (S S1 : State) (s : String) (f : String → Option CstrArray)
    (list : CstrArray) (hs : luaL_checkstring S 1 = .ok s S1) (hf : f s = some list)
    (hlen : (list.items.length : Int) < 2147483647)
    (hmem : enough_memory S (2 * list.items.length + 1)) :
    ∃ S2 : State, get_list S f = .ok 1 S2 := by
  have hm1 : enough_memory (note_cstr_array S1 list.addr) (2 * list.items.length + 1) := by
    intro m hm
    exact hmem m (by rw [← (luaL_checkstring_frame S S1 1 s hs).2.2.2.2.2]; exact hm)
  obtain ⟨S2, h⟩ := make_table_defined (note_cstr_array S1 list.addr) list hlen hm1
  unfold get_list
  rw [hs]
  simp only [Result.bind, hf, h]
  exact ⟨_, rfl⟩

theorem get_list2_outcome (S S1 : State) (s : String)
    (f : Pointer → String → Option CstrArray) (list : CstrArray)
    (hs : luaL_checkstring S 1 = .ok s S1) (hf : f (registry_handle S1) s = some list) :
    (∃ m : Option Nat, get_list2 S f = .ok 1
      { S1 with
        stack := .table S1.heap.length :: rawget S1.registry (.lightuserdata HANDLE) :: S1.stack
        heap := S1.heap ++ [rawset_list [] (sequence_entries list.items 1)]
        trace := S1.trace ++ (.cstr_array_returned list.addr
          :: copy_reads list.addr list.items.length 0) ++ [.voikkoFreeCstrArray list.addr]
        memory := m }) ∨
    (∃ (S2 : State) (reads : List NativeEvent),
      get_list2 S f = .raised .not_enough_memory S2 ∧
      S2.trace = S1.trace ++ .cstr_array_returned list.addr :: reads ∧
      ∀ ev ∈ reads, ∃ j, ev = .cstr_array_read list.addr j) ∨
    (get_list2 S f = .undefined ∧ 2147483647 ≤ (list.items.length : Int)) := by
  unfold get_list2
  rw [hs]
  simp only [Result.bind, get_handle_eq, hf]
  rcases make_table_outcome (note_cstr_array
      { S1 with stack := rawget S1.registry (.lightuserdata HANDLE) :: S1.stack } list.addr) list
    with ⟨m, h⟩ | ⟨S2, reads, h, h2, h3⟩ | ⟨h, h4⟩
  · refine Or.inl ⟨m, ?_⟩
    rw [h]
    simp only [note_cstr_array, voikkoFreeCstrArray, List.append_assoc, List.singleton_append,
      List.cons_append, List.nil_append]
  · refine Or.inr (Or.inl ⟨S2, reads, ?_, ?_, h3⟩)
    · rw [h]
    · rw [h2]
      simp [note_cstr_array]
  · refine Or.inr (Or.inr ⟨?_, h4⟩)
    rw [h]

theorem get_list2_none (S S1 : State) (s : String) (f : Pointer → String → Option CstrArray)
    (hs : luaL_checkstring S 1 = .ok s S1) (hf : f (registry_handle S1) s = none) :
    get_list2 S f = .ok 0
      { S1 with stack := rawget S1.registry (.lightuserdata HANDLE) :: S1.stack } := by
  unfold get_list2
  rw [hs]
  simp only [Result.bind, get_handle_eq, hf]

theorem get_list2_defined (S S1 : State) (s : String)
    (f : Pointer → String → Option CstrArray) (list : CstrArray)
    (hs : luaL_checkstring S 1 = .ok s S1) (hf : f (registry_handle S1) s = some list)
    (hlen : (list.items.length : Int) < 2147483647)
    (hmem : enough_memory S (2 * list.items.length + 1)) :
    ∃ S2 : State, get_list2 S f = .ok 1 S2 := by
  have hm1 : enough_memory (note_cstr_array
      { S1 with stack := rawget S1.registry (.lightuserdata HANDLE) :: S1.stack } list.addr)
      (2 * list.items.length + 1) := by
    intro m hm
    exact hmem m (by rw [← (luaL_checkstring_frame S S1 1 s hs).2.2.2.2.2]; exact hm)
  obtain ⟨S2, h⟩ := make_table_defined _ list hlen hm1
  unfold get_list2
  rw [hs]
  simp only [Result.bind, get_handle_eq, hf, h]
  exact ⟨_, rfl⟩

/-! ## The loops of `lualibvoikko_analyze_word_cstr` -/

theorem set_append_singleton (l : List Table) (a t : Table) (o : Nat) (h : o < l.length) :
    (l ++ [a]).set o t = l.set o t ++ [a] := by
  induction l generalizing o with
  | nil => simp at h
  | cons x l ih =>
    cases o with
    | zero => rfl
    | succ o =>
      simp only [List.cons_append, List.set_cons_succ, List.cons.injEq, true_and]
      exact ih o (by simpa using h)

theorem attribute_loop_ok (a : voikko_mor_analysis) (ks : List String) :
    ∀ (S : State) (r : Nat) (rest : List LuaValue),
      S.stack = .table r :: rest → r < S.heap.length →
      (∀ k ∈ ks, a.value_cstr k ≠ none) →
      attribute_loop a ks S = .ok ()
        { S with
          heap := (S.heap.set r (rawset_list (S.heap.getD r []) (attribute_entries a ks)))
          trace := S.trace ++ value_releases a ks } := by
  induction ks with
  | nil =>
    intro S r rest _ _ _
    simp only [attribute_loop, attribute_entries, value_releases, List.map_nil,
      rawset_list_nil, set_getD_self, List.append_nil]
  | cons k ks ih =>
    intro S r rest hs hr hv
    cases hk : a.value_cstr k with
    | none => exact absurd hk (hv k (List.mem_cons_self _ _))
    | some value =>
      have hidx : index2table (lua_pushstring S (fix_value k value)) (-2) = some (.object r) :=
        index2table_below_top _ (.string (fix_value k value)) r rest
          (by simp [lua_pushstring, hs]) hr
      simp only [attribute_loop, hk, lua_setfield, lua_pushstring, hs] at hidx ⊢
      rw [hidx]
      simp only [Result.bind, write_table, read_table, voikko_free_mor_analysis_value_cstr]
      rw [ih _ r rest rfl (by simpa using hr)
        (fun k2 hk2 => hv k2 (List.mem_cons_of_mem _ hk2))]
      simp only [attribute_entries, value_releases, List.map_cons, rawset_list_cons, hk,
        Option.getD_some, List.set_set, getD_set_same _ _ _ hr, List.append_assoc,
        List.singleton_append]

theorem attribute_loop_not_raised (a : voikko_mor_analysis) (ks : List String) :
    ∀ (S : State), (∃ S1, attribute_loop a ks S = .ok () S1 ∧ S1.stack = S.stack ∧
        ∀ k ∈ ks, a.value_cstr k ≠ none) ∨
      attribute_loop a ks S = .undefined := by
  induction ks with
  | nil => intro S; exact Or.inl ⟨S, rfl, rfl, by simp⟩
  | cons k ks ih =>
    intro S
    unfold attribute_loop
    cases hk : a.value_cstr k with
    | none => exact Or.inr rfl
    | some value =>
      simp only [lua_setfield, lua_pushstring]
      cases index2table { S with stack := .string (fix_value k value) :: S.stack } (-2) with
      | none => exact Or.inr rfl
      | some loc =>
        simp only [Result.bind]
        rcases ih (voikko_free_mor_analysis_value_cstr
          (write_table { S with stack := S.stack } loc
            (rawset (read_table { S with stack := .string (fix_value k value) :: S.stack } loc)
              (.string k) (.string (fix_value k value)))) value) with ⟨S1, h1, h2, h3⟩ | h1
        · refine Or.inl ⟨S1, h1, ?_, ?_⟩
          · rw [h2]
            cases loc <;> rfl
          · intro k2 hk2
            rcases List.mem_cons.mp hk2 with h | h
            · rw [h, hk]; simp
            · exact h3 k2 h
        · exact Or.inr h1

theorem luaL_error_not_ok {α : Type} (S : State) (fmt : String) (x : α) (S1 : State) :
    (luaL_error S fmt : Result α) ≠ .ok x S1 := by
  unfold luaL_error
  split <;> simp

theorem analysis_loop_ok (cands : List voikko_mor_analysis) :
    ∀ (i : Int) (S : State) (o : Nat) (rest : List LuaValue),
      S.stack = .table o :: rest → o < S.heap.length →
      -2147483648 ≤ i → i + cands.length ≤ 2147483647 →
      (∀ a ∈ cands, values_present a) →
      analysis_loop cands i S = .ok ()
        { S with
          heap := (S.heap.set o (rawset_list (S.heap.getD o [])
            (analysis_entries cands i S.heap.length))) ++ cands.map analysis_table
          trace := S.trace ++ analysis_releases cands } := by
  induction cands with
  | nil =>
    intro i S o rest _ _ _ _ _
    simp only [analysis_loop, analysis_entries, analysis_releases, List.map_nil,
      rawset_list_nil, set_getD_self, List.append_nil]
  | cons a cands ih =>
    intro i S o rest hs ho h1 h2 hv
    simp only [List.length_cons, Nat.cast_add, Nat.cast_one] at h2
    have hguard : ¬ N ≤ (snprintf_table i).2 := by
      have := snprintf_table_length i h1 (by omega)
      unfold N; omega
    have hattr := attribute_loop_ok a a.keys
      (lua_newtable (lua_pushstring S (table_label i))) S.heap.length
      (.string (table_label i) :: S.stack) (by simp [lua_newtable, lua_pushstring])
      (by simp [lua_newtable, lua_pushstring]) (hv a (List.mem_cons_self _ _))
    simp only [analysis_loop, int_incr_some i (by omega), if_neg hguard,
      snprintf_table_buffer i h1 (by omega)]
    rw [hattr]
    simp only [lua_newtable, lua_pushstring, set_length_append, getD_length_append, hs,
      Result.bind]
    have hidx : index2table
        { stack := .table S.heap.length :: .string (table_label i) :: .table o :: rest
          registry := S.registry
          heap := S.heap ++ [rawset_list [] (attribute_entries a a.keys)]
          position := S.position
          trace := S.trace ++ value_releases a a.keys
          memory := S.memory } (-3) = some (.object o) :=
      index2table_third _ _ _ o rest rfl (by simp; omega)
    simp only [lua_settable, hidx, write_table, read_table, Result.bind]
    rw [if_neg (by simp)]
    simp only [Result.bind]
    rw [ih (i + 1) _ o rest rfl (by simp; omega) (by omega) (by omega)
      (fun a2 ha2 => hv a2 (List.mem_cons_of_mem _ ha2))]
    simp only [getD_append_left _ _ _ ho, set_append_singleton _ _ _ _ ho, List.length_append,
      List.length_set, List.length_singleton, List.set_set, getD_set_same _ _ _ ho,
      analysis_entries, analysis_releases, rawset_list_cons, List.map_cons, analysis_table,
      List.append_assoc, List.singleton_append,
      set_append_singleton _ _ _ _ (show o < (S.heap.set o _).length by simpa using ho),
      getD_append_left _ _ _ (show o < (S.heap.set o _).length by simpa using ho)]

/-- The loop over the analyses raises no error; when it finishes, no increment of the
counter overflowed and every supplied key had a value. -/
theorem analysis_loop_outcome (cands : List voikko_mor_analysis) :
    ∀ (i : Int) (S : State), -2147483648 ≤ i → i ≤ 2147483647 →
      (∃ S1 : State, analysis_loop cands i S = .ok () S1 ∧
        i + cands.length ≤ 2147483647 ∧ ∀ a ∈ cands, values_present a) ∨
      analysis_loop cands i S = .undefined := by
  induction cands with
  | nil => intro i S _ h2; exact Or.inl ⟨S, rfl, by simpa using h2, by simp⟩
  | cons a cands ih =>
    intro i S h1 h2
    unfold analysis_loop
    cases hinc : int_incr i with
    | none => exact Or.inr rfl
    | some i1 =>
      obtain ⟨hlt, hi1⟩ := int_incr_eq_some i i1 hinc
      subst hi1
      have hguard : ¬ N ≤ (snprintf_table i).2 := by
        have := snprintf_table_length i h1 (by omega)
        unfold N; omega
      simp only [if_neg hguard]
      rcases attribute_loop_not_raised a a.keys
        (lua_newtable (lua_pushstring S (snprintf_table i).1)) with ⟨S2, h3, h4, h5⟩ | h3
      · rw [h3]
        simp only [Result.bind, lua_settable, h4, lua_newtable, lua_pushstring]
        cases hidx : index2table S2 (-3) with
        | none => exact Or.inr rfl
        | some loc =>
          simp only [reduceCtorEq, if_false, Result.bind]
          rcases ih (i + 1) (write_table { S2 with stack := S.stack } loc
            (rawset (read_table S2 loc) (.string (snprintf_table i).1)
              (.table S.heap.length))) (by omega) (by omega) with ⟨S3, h6, h7, h8⟩ | h6
          · refine Or.inl ⟨S3, h6, ?_, ?_⟩
            · simp only [List.length_cons, Nat.cast_add, Nat.cast_one]
              omega
            · intro a2 ha2
              rcases List.mem_cons.mp ha2 with h | h
              · rw [h]; exact h5
              · exact h8 a2 h
          · exact Or.inr h6
      · rw [h3]
        exact Or.inr rfl

theorem analysis_loop_not_raised (cands : List voikko_mor_analysis) (i : Int) (S : State)
    (h1 : -2147483648 ≤ i) (h2 : i ≤ 2147483647) (e : LuaError) (S1 : State) :
    analysis_loop cands i S ≠ .raised e S1 := by
  rcases analysis_loop_outcome cands i S h1 h2 with ⟨S2, h, _⟩ | h
  · rw [h]; simp
  · rw [h]; simp

/-! ## Tables written once per key -/

theorem rawset_new_key (t : Table) (k v : LuaValue) (hk : ∀ e ∈ t, e.1 ≠ k) (hv : v ≠ .nil) :
    rawset t k v = t ++ [(k, v)] := by
  induction t with
  | nil => simp [rawset, hv]
  | cons e t ih =>
    obtain ⟨k1, v1⟩ := e
    have h1 : k1 ≠ k := hk (k1, v1) (List.mem_cons_self _ _)
    simp only [rawset, if_neg h1, List.cons_append, List.cons.injEq, true_and]
    exact ih (fun e he => hk e (List.mem_cons_of_mem _ he))

theorem rawset_list_new_keys (kvs : List (LuaValue × LuaValue)) :
    ∀ (t : Table), (kvs.map Prod.fst).Nodup → (∀ e ∈ t, ∀ kv ∈ kvs, e.1 ≠ kv.1) →
      (∀ kv ∈ kvs, kv.2 ≠ .nil) → rawset_list t kvs = t ++ kvs := by
  induction kvs with
  | nil => intro t _ _ _; simp [rawset_list_nil]
  | cons kv kvs ih =>
    intro t hnd hdis hv
    rw [List.map_cons, List.nodup_cons] at hnd
    rw [rawset_list_cons, rawset_new_key t kv.1 kv.2
      (fun e he => hdis e he kv (List.mem_cons_self _ _)) (hv kv (List.mem_cons_self _ _))]
    rw [ih _ hnd.2 ?_ (fun e he => hv e (List.mem_cons_of_mem _ he))]
    · simp
    · intro e he kv2 hkv2
      rcases List.mem_append.mp he with h | h
      · exact hdis e h kv2 (List.mem_cons_of_mem _ hkv2)
      · simp only [List.mem_singleton] at h
        subst h
        intro heq
        exact hnd.1 (List.mem_map.mpr ⟨kv2, hkv2, heq.symm⟩)

theorem sequence_entries_keys (items : List String) :
    ∀ (i : Int), (sequence_entries items i).map Prod.fst =
      (List.range items.length).map (fun (j : Nat) => LuaValue.integer (i + (j : Int))) := by
  induction items with
  | nil => intro i; rfl
  | cons s items ih =>
    intro i
    rw [sequence_entries, List.map_cons, ih (i + 1), List.length_cons,
      List.range_succ_eq_map, List.map_cons, List.map_map]
    simp only [Nat.cast_zero, add_zero, List.cons.injEq, true_and]
    apply List.map_congr_left
    intro j _
    simp only [Function.comp_apply, LuaValue.integer.injEq]
    push_cast; omega

theorem sequence_entries_length (items : List String) :
    ∀ (i : Int), (sequence_entries items i).length = items.length := by
  induction items with
  | nil => intro i; rfl
  | cons s items ih => intro i; simp [sequence_entries, ih]

theorem sequence_table_eq (items : List String) :
    rawset_list [] (sequence_entries items 1) = sequence_entries items 1 := by
  rw [rawset_list_new_keys _ [] ?_ (by simp) ?_]
  · rfl
  · rw [sequence_entries_keys items 1]
    refine (List.nodup_range _).map_on ?_
    intro x _ y _ hxy
    simp only [LuaValue.integer.injEq] at hxy
    omega
  · intro kv hkv
    obtain ⟨j, s, _, rfl⟩ := sequence_entries_mem items 1 kv hkv
    simp

theorem analysis_entries_keys (cands : List voikko_mor_analysis) :
    ∀ (i : Int) (r : Nat), (analysis_entries cands i r).map Prod.fst =
      (List.range cands.length).map
        (fun (j : Nat) => LuaValue.string (table_label (i + (j : Int)))) := by
  induction cands with
  | nil => intro i r; rfl
  | cons a cands ih =>
    intro i r
    rw [analysis_entries, List.map_cons, ih (i + 1) (r + 1), List.length_cons,
      List.range_succ_eq_map, List.map_cons, List.map_map]
    simp only [Nat.cast_zero, add_zero, List.cons.injEq, true_and]
    apply List.map_congr_left
    intro j _
    simp only [Function.comp_apply, LuaValue.string.injEq]
    congr 1
    push_cast; omega

theorem analysis_entries_length (cands : List voikko_mor_analysis) :
    ∀ (i : Int) (r : Nat), (analysis_entries cands i r).length = cands.length := by
  induction cands with
  | nil => intro i r; rfl
  | cons a cands ih => intro i r; simp [analysis_entries, ih]

theorem analysis_entries_mem (cands : List voikko_mor_analysis) :
    ∀ (i : Int) (r : Nat), ∀ kv ∈ analysis_entries cands i r,
      ∃ (j : Nat), j < cands.length ∧
        kv = (.string (table_label (i + j)), .table (r + j)) := by
  induction cands with
  | nil => intro i r kv h; simp [analysis_entries] at h
  | cons a cands ih =>
    intro i r kv h
    simp only [analysis_entries, List.mem_cons] at h
    rcases h with h | h
    · exact ⟨0, by simp, by rw [h]; simp⟩
    · obtain ⟨j, hj, hkv⟩ := ih (i + 1) (r + 1) kv h
      refine ⟨j + 1, by simpa using hj, ?_⟩
      rw [hkv]
      have : i + 1 + (j : Int) = i + ((j + 1 : Nat) : Int) := by push_cast; omega
      rw [this, show r + 1 + j = r + (j + 1) by omega]

theorem mem_analysis_entries (cands : List voikko_mor_analysis) :
    ∀ (i : Int) (r : Nat) (j : Nat), j < cands.length →
      (LuaValue.string (table_label (i + j)), LuaValue.table (r + j))
        ∈ analysis_entries cands i r := by
  induction cands with
  | nil => intro i r j h; simp at h
  | cons a cands ih =>
    intro i r j h
    cases j with
    | zero => simp [analysis_entries]
    | succ j =>
      have hm := ih (i + 1) (r + 1) j (by simpa using h)
      have : i + 1 + (j : Int) = i + ((j + 1 : Nat) : Int) := by push_cast; omega
      rw [this, show r + 1 + j = r + (j + 1) by omega] at hm
      exact List.mem_cons_of_mem _ hm

/-! ## `lualibvoikko_analyze_word_cstr` -/

theorem holds_analysis_table (a : voikko_mor_analysis) : holds_analysis (analysis_table a) a := by
  have hpresent : ∀ k ∈ a.keys, rawget (analysis_table a) (.string k)
      = .string (fix_value k ((a.value_cstr k).getD "")) := by
    intro k hk
    refine rawget_rawset_list_present _ [] _ _ ?_ (by simp) ?_
    · exact List.mem_map.mpr ⟨k, hk, rfl⟩
    · intro kv hkv hkey
      obtain ⟨k2, _, rfl⟩ := List.mem_map.mp hkv
      simp only [LuaValue.string.injEq] at hkey
      rw [hkey]
  constructor
  · intro key
    constructor
    · intro h
      obtain ⟨kv, hkv, hkey⟩ := rawget_rawset_list_bound _ key h
      obtain ⟨k, hk, rfl⟩ := List.mem_map.mp hkv
      exact ⟨k, hk, hkey.symm⟩
    · rintro ⟨k, hk, rfl⟩
      rw [hpresent k hk]
      simp
  · intro k hk v hv
    rw [hpresent k hk, hv]
    rfl

theorem analyze_some (lib : Libvoikko) (S S1 : State) (word : String)
    (analysis : MorAnalysisArray) (hword : luaL_checkstring S 1 = .ok word S1)
    (hnative : lib.voikkoAnalyzeWordCstr (registry_handle S1) word = some analysis)
    (hvalues : ∀ a ∈ analysis.items, values_present a)
    (hcount : (analysis.items.length : Int) < 2147483647) :
    lualibvoikko_analyze_word_cstr lib S = .ok 1
      { S1 with
        stack := .table S1.heap.length :: rawget S1.registry (.lightuserdata HANDLE) :: S1.stack
        heap := (S1.heap ++ [rawset_list [] (analysis_entries analysis.items 1
          (S1.heap.length + 1))]) ++ analysis.items.map analysis_table
        trace := S1.trace ++ (analysis_releases analysis.items
          ++ [.voikko_free_mor_analysis (some analysis.addr)]) } := by
  unfold lualibvoikko_analyze_word_cstr
  rw [hword]
  simp only [Result.bind, get_handle_eq, hnative]
  rw [analysis_loop_ok analysis.items 1 _ S1.heap.length
    (rawget S1.registry (.lightuserdata HANDLE) :: S1.stack) (by simp [lua_newtable])
    (by simp [lua_newtable]) (by decide) (by omega) hvalues]
  simp only [lua_newtable, set_length_append, getD_length_append, List.length_append,
    List.length_singleton, voikko_free_mor_analysis, List.append_assoc]

theorem analyze_none (lib : Libvoikko) (S S1 : State) (word : String)
    (hword : luaL_checkstring S 1 = .ok word S1)
    (hnative : lib.voikkoAnalyzeWordCstr (registry_handle S1) word = none) :
    lualibvoikko_analyze_word_cstr lib S = .ok 0
      { S1 with
        stack := rawget S1.registry (.lightuserdata HANDLE) :: S1.stack
        trace := S1.trace ++ [.voikko_free_mor_analysis none] } := by
  unfold lualibvoikko_analyze_word_cstr
  rw [hword]
  simp only [Result.bind, get_handle_eq, hnative, voikko_free_mor_analysis]

/-- When the call returns on a non-null array, no increment of the counter overflowed
and every supplied key had a value. -/
theorem analyze_returned (lib : Libvoikko) (S S1 : State) (word : String)
    (analysis : MorAnalysisArray) (hword : luaL_checkstring S 1 = .ok word S1)
    (hnative : lib.voikkoAnalyzeWordCstr (registry_handle S1) word = some analysis)
    (n : Nat) (S2 : State) (hret : lualibvoikko_analyze_word_cstr lib S = .ok n S2) :
    (∀ a ∈ analysis.items, values_present a) ∧
      (analysis.items.length : Int) < 2147483647 := by
  unfold lualibvoikko_analyze_word_cstr at hret
  rw [hword] at hret
  simp only [Result.bind, get_handle_eq, hnative] at hret
  rcases analysis_loop_outcome analysis.items 1
    (lua_newtable { S1 with stack := rawget S1.registry (.lightuserdata HANDLE) :: S1.stack })
    (by decide) (by decide) with ⟨S3, _, h2, h3⟩ | h
  · exact ⟨h3, by omega⟩
  · rw [h] at hret
    simp [Result.bind] at hret

theorem getD_outer (H : List Table) (outer : Table) (L : List Table) :
    ((H ++ [outer]) ++ L).getD H.length [] = outer := by
  have hlt : H.length < (H ++ [outer]).length := by simp
  rw [List.getD_eq_getElem?_getD, List.getElem?_append_left hlt,
    List.getElem?_append_right (Nat.le_refl _)]
  simp

theorem getD_inner (H : List Table) (outer : Table) (L : List Table) (j : Nat) (t : Table)
    (h : L[j]? = some t) : ((H ++ [outer]) ++ L).getD (H.length + 1 + j) [] = t := by
  have hlen : (H ++ [outer]).length ≤ H.length + 1 + j := by simp
  rw [List.getD_eq_getElem?_getD, List.getElem?_append_right hlen]
  simp [h]

theorem outer_table_eq (cands : List voikko_mor_analysis) (r : Nat) :
    rawset_list [] (analysis_entries cands 1 r) = analysis_entries cands 1 r := by
  rw [rawset_list_new_keys _ [] ?_ (by simp) ?_]
  · rfl
  · rw [analysis_entries_keys cands 1 r]
    refine (List.nodup_range _).map_on ?_
    intro x _ y _ hxy
    simp only [LuaValue.string.injEq] at hxy
    have := table_label_injective _ _ hxy
    omega
  · intro kv hkv
    obtain ⟨j, _, rfl⟩ := analysis_entries_mem cands 1 r kv hkv
    simp

theorem outer_table_get (cands : List voikko_mor_analysis) (r : Nat) (j : Nat)
    (hj : j < cands.length) :
    rawget (rawset_list [] (analysis_entries cands 1 r))
      (.string (table_label ((j : Int) + 1))) = .table (r + j) := by
  have hm := mem_analysis_entries cands 1 r j hj
  rw [show (1 : Int) + (j : Int) = (j : Int) + 1 by omega] at hm
  refine rawget_rawset_list_present _ [] _ _ hm (by simp) ?_
  intro kv hkv hk
  obtain ⟨j2, hj2, rfl⟩ := analysis_entries_mem cands 1 r kv hkv
  simp only [LuaValue.string.injEq] at hk
  have := table_label_injective _ _ hk
  have : j2 = j := by omega
  rw [this]

theorem outer_table_bound (cands : List voikko_mor_analysis) (r : Nat) (key : LuaValue)
    (h : rawget (rawset_list [] (analysis_entries cands 1 r)) key ≠ .nil) :
    ∃ j : Nat, j < cands.length ∧ key = .string (table_label ((j : Int) + 1)) := by
  obtain ⟨kv, hkv, hk⟩ := rawget_rawset_list_bound _ key h
  obtain ⟨j, hj, rfl⟩ := analysis_entries_mem cands 1 r kv hkv
  refine ⟨j, hj, ?_⟩
  rw [← hk, show (1 : Int) + (j : Int) = (j : Int) + 1 by omega]

theorem sample_analysis_values : values_present sample_analysis := by
  intro k _
  unfold sample_analysis
  simp only
  split_ifs <;> simp

theorem sample_analysis_verb_values : values_present sample_analysis_verb := by
  intro k _
  simp [sample_analysis_verb]

theorem sample_analysis_genitive_values : values_present sample_analysis_genitive := by
  intro k _
  unfold sample_analysis_genitive
  simp only
  split_ifs <;> simp

/-! ## Claims about `lualibvoikko_analyze_word_cstr` -/

/-- C1: for every native analysis result that is a non-null array of N candidates, a
call of `analyse_word` that returns has returned exactly one value, an outer table
with exactly N entries whose keys are exactly the strings `table1` ... `tableN`
(decimal, 1-based, contiguous, in the candidates' order), the entry `table<i>` being
a mapping whose key set is exactly the set of keys supplied for the i-th candidate,
each key `k` bound to `fix_value (k, native value of k)`; and the call does return
whenever C++ defines its behaviour: every supplied key has a non-null value and the
array has fewer than `INT_MAX` candidates, so that no `i++` overflows. -/
theorem analyse_word_tables (lib : Libvoikko) (S S1 : State) (word : String)
    (analysis : MorAnalysisArray) (hword : luaL_checkstring S 1 = .ok word S1)
    (hnative : lib.voikkoAnalyzeWordCstr (registry_handle S1) word = some analysis) :
    ((∀ a ∈ analysis.items, values_present a) → (analysis.items.length : Int) < INT_MAX →
      ∃ S2 : State, lualibvoikko_analyze_word_cstr lib S = .ok 1 S2) ∧
    (∀ (n : Nat) (S2 : State), lualibvoikko_analyze_word_cstr lib S = .ok n S2 →
      n = 1 ∧ ∃ outer : Nat, S2.stack.head? = some (.table outer) ∧
        (S2.heap.getD outer []).length = analysis.items.length ∧
        (∀ key, rawget (S2.heap.getD outer []) key ≠ .nil ↔
          ∃ j : Nat, j < analysis.items.length ∧
            key = .string (table_label ((j : Int) + 1))) ∧
        (∀ (j : Nat) (a : voikko_mor_analysis), analysis.items[j]? = some a →
          ∃ inner : Nat,
            rawget (S2.heap.getD outer []) (.string (table_label ((j : Int) + 1)))
              = .table inner ∧
            holds_analysis (S2.heap.getD inner []) a)) := by
  constructor
  · intro hvalues hcount
    exact ⟨_, analyze_some lib S S1 word analysis hword hnative hvalues hcount⟩
  · intro n S2 hret
    obtain ⟨hvalues, hcount⟩ := analyze_returned lib S S1 word analysis hword hnative n S2 hret
    rw [analyze_some lib S S1 word analysis hword hnative hvalues hcount] at hret
    simp only [Result.ok.injEq] at hret
    obtain ⟨hn, rfl⟩ := hret
    refine ⟨hn.symm, S1.heap.length, rfl, ?_⟩
    simp only [getD_outer]
    refine ⟨?_, ?_, ?_⟩
    · rw [outer_table_eq, analysis_entries_length]
    · intro key
      constructor
      · exact outer_table_bound _ _ key
      · rintro ⟨j, hj, rfl⟩
        rw [outer_table_get _ _ j hj]
        simp
    · intro j a hja
      have hj : j < analysis.items.length := (List.getElem?_eq_some_iff.mp hja).1
      refine ⟨S1.heap.length + 1 + j, outer_table_get _ _ j hj, ?_⟩
      rw [getD_inner _ _ _ j (analysis_table a) (by simp [List.getElem?_map, hja])]
      exact holds_analysis_table a

/-- C1, witness: for three different candidates the call returns a table of three
entries in which `table1`, `table2` and `table3` hold the mappings of the first,
second and third candidate. -/
theorem analyse_word_tables_witness :
    ∃ (S2 : State) (outer : Nat),
      lualibvoikko_analyze_word_cstr
        (sample_lib (none, .null) none
          (some ⟨64, [sample_analysis, sample_analysis_verb, sample_analysis_genitive]⟩))
        sample_state = .ok 1 S2 ∧
      S2.stack.head? = some (.table outer) ∧
      (S2.heap.getD outer []).length = 3 ∧
      (∃ inner : Nat, rawget (S2.heap.getD outer []) (.string "table1") = .table inner ∧
        holds_analysis (S2.heap.getD inner []) sample_analysis) ∧
      (∃ inner : Nat, rawget (S2.heap.getD outer []) (.string "table2") = .table inner ∧
        holds_analysis (S2.heap.getD inner []) sample_analysis_verb) ∧
      (∃ inner : Nat, rawget (S2.heap.getD outer []) (.string "table3") = .table inner ∧
        holds_analysis (S2.heap.getD inner []) sample_analysis_genitive) := by
  have h := analyse_word_tables
    (sample_lib (none, .null) none
      (some ⟨64, [sample_analysis, sample_analysis_verb, sample_analysis_genitive]⟩))
    sample_state sample_state "kissa"
    ⟨64, [sample_analysis, sample_analysis_verb, sample_analysis_genitive]⟩ rfl rfl
  obtain ⟨S2, hret⟩ := h.1
    (by
      intro a ha
      simp only [List.mem_cons, List.mem_singleton, List.mem_nil_iff, or_false] at ha
      rcases ha with rfl | rfl | rfl
      · exact sample_analysis_values
      · exact sample_analysis_verb_values
      · exact sample_analysis_genitive_values)
    (by decide)
  obtain ⟨_, outer, h2, h3, _, h5⟩ := h.2 1 S2 hret
  exact ⟨S2, outer, hret, h2, h3, h5 0 sample_analysis rfl, h5 1 sample_analysis_verb rfl,
    h5 2 sample_analysis_genitive rfl⟩

/-- C4, counterexample: the native call returns a non-null array holding zero
candidates; the binding returns one value, an empty table. -/
theorem analyse_word_zero_candidates_returns_table :
    ∃ S2 : State,
      lualibvoikko_analyze_word_cstr (sample_lib (none, .null) none (some ⟨64, []⟩))
        sample_state = .ok 1 S2 ∧
      S2.stack.head? = some (.table 0) ∧ S2.heap.getD 0 [] = [] :=
  ⟨_, rfl, rfl, rfl⟩

/-- C4, amended: `analyse_word` produces no return value (result count 0) exactly when
the native call returns a null pointer; when the native call returns a non-null array
holding zero candidates it returns one value, a new empty table. -/
theorem analyse_word_no_candidates (lib : Libvoikko) (S S1 : State) (word : String)
    (hword : luaL_checkstring S 1 = .ok word S1) :
    (lib.voikkoAnalyzeWordCstr (registry_handle S1) word = none →
      ∃ S2 : State, lualibvoikko_analyze_word_cstr lib S = .ok 0 S2 ∧ S2.heap = S.heap) ∧
    (∀ addr : Nat, lib.voikkoAnalyzeWordCstr (registry_handle S1) word = some ⟨addr, []⟩ →
      ∃ (S2 : State) (outer : Nat), lualibvoikko_analyze_word_cstr lib S = .ok 1 S2 ∧
        S2.stack.head? = some (.table outer) ∧ S.heap.length ≤ outer ∧
        S2.heap.getD outer [] = []) ∧
    (∀ (n : Nat) (S2 : State), lualibvoikko_analyze_word_cstr lib S = .ok n S2 →
      (n = 0 ↔ lib.voikkoAnalyzeWordCstr (registry_handle S1) word = none)) := by
  have hframe := luaL_checkstring_frame S S1 1 word hword
  refine ⟨?_, ?_, ?_⟩
  · intro hnone
    exact ⟨_, analyze_none lib S S1 word hword hnone, hframe.2.1⟩
  · intro addr hsome
    refine ⟨_, S1.heap.length, analyze_some lib S S1 word ⟨addr, []⟩ hword hsome
      (fun a ha => by simp at ha) (by simp), rfl, by rw [hframe.2.1], ?_⟩
    simp only [getD_outer]
    rfl
  · intro n S2 hret
    cases hnat : lib.voikkoAnalyzeWordCstr (registry_handle S1) word with
    | none =>
      rw [analyze_none lib S S1 word hword hnat] at hret
      simp only [Result.ok.injEq] at hret
      simp [hret.1.symm]
    | some analysis =>
      obtain ⟨hvalues, hcount⟩ :=
        analyze_returned lib S S1 word analysis hword hnat n S2 hret
      rw [analyze_some lib S S1 word analysis hword hnat hvalues hcount] at hret
      simp only [Result.ok.injEq] at hret
      simp [hret.1.symm]

/-- C4, witness: a null result for the word `kissa`, and an empty non-null array. -/
theorem analyse_word_no_candidates_witness :
    (∃ S2 : State,
      lualibvoikko_analyze_word_cstr (sample_lib (none, .null) none none) sample_state
        = .ok 0 S2 ∧ S2.heap = sample_state.heap) ∧
    (∃ (S2 : State) (outer : Nat),
      lualibvoikko_analyze_word_cstr (sample_lib (none, .null) none (some ⟨64, []⟩))
        sample_state = .ok 1 S2 ∧
      S2.stack.head? = some (.table outer) ∧ sample_state.heap.length ≤ outer ∧
      S2.heap.getD outer [] = []) :=
  ⟨(analyse_word_no_candidates (sample_lib (none, .null) none none) sample_state sample_state
      "kissa" rfl).1 rfl,
   (analyse_word_no_candidates (sample_lib (none, .null) none (some ⟨64, []⟩)) sample_state
      sample_state "kissa" rfl).2.1 64 rfl⟩

/-- C9: for every value `i` of the 32-bit signed counter the label `table<i>` has at
most 16 characters, fewer than the buffer size `N = 100`, so `snprintf` returns less
than `N` and leaves the whole label in the buffer; whatever the analyses are, the call
raises no error other than the argument check of `luaL_checkstring`, so the error
"value of N is too small" is never raised. -/
theorem label_buffer_never_overflows :
    (∀ i : Int, -2147483648 ≤ i → i < 2147483648 →
      (table_label i).length ≤ 16 ∧ (snprintf_table i).2 = (table_label i).length ∧
        ¬ N ≤ (snprintf_table i).2 ∧ (snprintf_table i).1 = table_label i) ∧
    (∀ (lib : Libvoikko) (S S1 : State) (e : LuaError),
      lualibvoikko_analyze_word_cstr lib S = .raised e S1 → e = .bad_argument 1) := by
  constructor
  · intro i h1 h2
    have hl := table_label_length i h1 h2
    refine ⟨hl, rfl, ?_, snprintf_table_buffer i h1 h2⟩
    have := snprintf_table_length i h1 h2
    unfold N; omega
  · intro lib S S1 e h
    unfold lualibvoikko_analyze_word_cstr at h
    rcases luaL_checkstring_defined S 1 with ⟨word, S2, hw⟩ | hw
    · rw [hw] at h
      simp only [Result.bind, get_handle_eq] at h
      cases hnat : lib.voikkoAnalyzeWordCstr (registry_handle S2) word with
      | none => simp [hnat] at h
      | some analysis =>
        simp only [hnat] at h
        cases hloop : analysis_loop analysis.items 1
            (lua_newtable { S2 with
              stack := rawget S2.registry (.lightuserdata HANDLE) :: S2.stack }) with
        | ok u S3 =>
          rw [hloop] at h
          simp [Result.bind] at h
        | raised e2 S3 =>
          exact absurd hloop (analysis_loop_not_raised _ 1 _ (by decide) (by decide) e2 S3)
        | undefined =>
          rw [hloop] at h
          simp [Result.bind] at h
    · rw [hw] at h
      simp only [Result.bind, Result.raised.injEq] at h
      exact h.1.symm

/-- C9, witness: the smallest counter value, whose label is the longest. -/
theorem label_buffer_never_overflows_witness :
    (table_label (-2147483648)).length ≤ 16 ∧
      (snprintf_table (-2147483648)).2 = (table_label (-2147483648)).length ∧
      ¬ N ≤ (snprintf_table (-2147483648)).2 ∧
      (snprintf_table (-2147483648)).1 = table_label (-2147483648) :=
  label_buffer_never_overflows.1 (-2147483648) (by decide) (by decide)

/-! ## Claims about the list-valued queries -/

theorem get_list_returned (S S1 : State) (s : String) (f : String → Option CstrArray)
    (list : CstrArray) (hs : luaL_checkstring S 1 = .ok s S1) (hf : f s = some list)
    (n : Nat) (S2 : State) (hret : get_list S f = .ok n S2) :
    n = 1 ∧
      S2.trace = S.trace ++ (.cstr_array_returned list.addr
        :: copy_reads list.addr list.items.length 0) ++ [.voikkoFreeCstrArray list.addr] ∧
      ∃ t : Nat, S2.stack.head? = some (.table t) ∧
        S2.heap.getD t [] = rawset_list [] (sequence_entries list.items 1) := by
  have htr : S1.trace = S.trace := (luaL_checkstring_frame S S1 1 s hs).2.2.1
  rcases get_list_outcome S S1 s f list hs hf with ⟨m, h⟩ | ⟨S3, reads, h, _⟩ | ⟨h, _⟩
  · rw [h] at hret
    simp only [Result.ok.injEq] at hret
    obtain ⟨hn, rfl⟩ := hret
    refine ⟨hn.symm, by rw [← htr], S1.heap.length, rfl, ?_⟩
    simp only [getD_length_append]
  · rw [h] at hret
    simp at hret
  · rw [h] at hret
    simp at hret

theorem get_list_raised (S S1 : State) (s : String) (f : String → Option CstrArray)
    (list : CstrArray) (hs : luaL_checkstring S 1 = .ok s S1) (hf : f s = some list)
    (e : LuaError) (S2 : State) (hret : get_list S f = .raised e S2) :
    e = .not_enough_memory ∧ ∃ reads : List NativeEvent,
      S2.trace = S.trace ++ .cstr_array_returned list.addr :: reads ∧
      ∀ ev ∈ reads, ∃ j, ev = .cstr_array_read list.addr j := by
  have htr : S1.trace = S.trace := (luaL_checkstring_frame S S1 1 s hs).2.2.1
  rcases get_list_outcome S S1 s f list hs hf with ⟨m, h⟩ | ⟨S3, reads, h, h2, h3⟩ | ⟨h, _⟩
  · rw [h] at hret
    simp at hret
  · rw [h] at hret
    simp only [Result.raised.injEq] at hret
    obtain ⟨he, rfl⟩ := hret
    exact ⟨he.symm, reads, by rw [h2, htr], h3⟩
  · rw [h] at hret
    simp at hret

theorem get_list2_returned (S S1 : State) (s : String)
    (f : Pointer → String → Option CstrArray) (list : CstrArray)
    (hs : luaL_checkstring S 1 = .ok s S1) (hf : f (registry_handle S1) s = some list)
    (n : Nat) (S2 : State) (hret : get_list2 S f = .ok n S2) :
    n = 1 ∧
      S2.trace = S.trace ++ (.cstr_array_returned list.addr
        :: copy_reads list.addr list.items.length 0) ++ [.voikkoFreeCstrArray list.addr] ∧
      ∃ t : Nat, S2.stack.head? = some (.table t) ∧
        S2.heap.getD t [] = rawset_list [] (sequence_entries list.items 1) := by
  have htr : S1.trace = S.trace := (luaL_checkstring_frame S S1 1 s hs).2.2.1
  rcases get_list2_outcome S S1 s f list hs hf with ⟨m, h⟩ | ⟨S3, reads, h, _⟩ | ⟨h, _⟩
  · rw [h] at hret
    simp only [Result.ok.injEq] at hret
    obtain ⟨hn, rfl⟩ := hret
    refine ⟨hn.symm, by rw [← htr], S1.heap.length, rfl, ?_⟩
    simp only [getD_length_append]
  · rw [h] at hret
    simp at hret
  · rw [h] at hret
    simp at hret

theorem get_list2_raised (S S1 : State) (s : String)
    (f : Pointer → String → Option CstrArray) (list : CstrArray)
    (hs : luaL_checkstring S 1 = .ok s S1) (hf : f (registry_handle S1) s = some list)
    (e : LuaError) (S2 : State) (hret : get_list2 S f = .raised e S2) :
    e = .not_enough_memory ∧ ∃ reads : List NativeEvent,
      S2.trace = S.trace ++ .cstr_array_returned list.addr :: reads ∧
      ∀ ev ∈ reads, ∃ j, ev = .cstr_array_read list.addr j := by
  have htr : S1.trace = S.trace := (luaL_checkstring_frame S S1 1 s hs).2.2.1
  rcases get_list2_outcome S S1 s f list hs hf with ⟨m, h⟩ | ⟨S3, reads, h, h2, h3⟩ | ⟨h, _⟩
  · rw [h] at hret
    simp at hret
  · rw [h] at hret
    simp only [Result.raised.injEq] at hret
    obtain ⟨he, rfl⟩ := hret
    exact ⟨he.symm, reads, by rw [h2, htr], h3⟩
  · rw [h] at hret
    simp at hret

/-- C5: for every list-valued query (the templates `get_list` and `get_list2`, through
which `suggest`, `get_attribute_values` and the three `list_supported_*_languages`
go): if the native call returns null the query returns no value; if it returns a
non-null array holding `s_1 .. s_n`, a query that returns has returned exactly one
value, a table with exactly `n` entries whose keys are exactly `1 .. n`, element `i`
being `s_i`; and the query does return whenever C++ defines its behaviour (the array
has fewer than `INT_MAX` strings, so that no `i++` overflows) and the interpreter
serves the `2 n + 1` memory-needing calls of `make_table`. -/
theorem list_query_sequence (S S1 : State) (s : String)
    (hs : luaL_checkstring S 1 = .ok s S1) :
    (∀ f : String → Option CstrArray, f s = none → get_list S f = .ok 0 S1) ∧
    (∀ (f : String → Option CstrArray) (list : CstrArray), f s = some list →
      ((list.items.length : Int) < INT_MAX → enough_memory S (2 * list.items.length + 1) →
        ∃ S2 : State, get_list S f = .ok 1 S2) ∧
      (∀ (n : Nat) (S2 : State), get_list S f = .ok n S2 →
        n = 1 ∧ ∃ t : Nat, S2.stack.head? = some (.table t) ∧
          (S2.heap.getD t []).length = list.items.length ∧
          holds_sequence (S2.heap.getD t []) list.items)) ∧
    (∀ f : Pointer → String → Option CstrArray, f (registry_handle S1) s = none →
      ∃ S2 : State, get_list2 S f = .ok 0 S2) ∧
    (∀ (f : Pointer → String → Option CstrArray) (list : CstrArray),
      f (registry_handle S1) s = some list →
      ((list.items.length : Int) < INT_MAX → enough_memory S (2 * list.items.length + 1) →
        ∃ S2 : State, get_list2 S f = .ok 1 S2) ∧
      (∀ (n : Nat) (S2 : State), get_list2 S f = .ok n S2 →
        n = 1 ∧ ∃ t : Nat, S2.stack.head? = some (.table t) ∧
          (S2.heap.getD t []).length = list.items.length ∧
          holds_sequence (S2.heap.getD t []) list.items)) ∧
    (∀ lib : Libvoikko,
      lualibvoikko_suggest_cstr lib S = get_list2 S lib.voikkoSuggestCstr ∧
      lualibvoikko_get_attribute_values lib S = get_list2 S lib.voikkoGetAttributeValues ∧
      lualibvoikko_list_supported_spelling_languages lib S
        = get_list S lib.voikkoListSupportedSpellingLanguages ∧
      lualibvoikko_list_supported_hyphenation_languages lib S
        = get_list S lib.voikkoListSupportedHyphenationLanguages ∧
      lualibvoikko_list_supported_grammar_checking_languages lib S
        = get_list S lib.voikkoListSupportedGrammarCheckingLanguages) := by
  refine ⟨?_, ?_, ?_, ?_, fun lib => ⟨rfl, rfl, rfl, rfl, rfl⟩⟩
  · intro f hf
    exact get_list_none S S1 s f hs hf
  · intro f list hf
    refine ⟨fun hlen hmem => get_list_defined S S1 s f list hs hf hlen hmem, ?_⟩
    intro n S2 hret
    obtain ⟨hn, _, t, ht, htab⟩ := get_list_returned S S1 s f list hs hf n S2 hret
    refine ⟨hn, t, ht, ?_, ?_⟩
    · rw [htab, sequence_table_eq, sequence_entries_length]
    · rw [htab]
      exact holds_sequence_entries list.items
  · intro f hf
    exact ⟨_, get_list2_none S S1 s f hs hf⟩
  · intro f list hf
    refine ⟨fun hlen hmem => get_list2_defined S S1 s f list hs hf hlen hmem, ?_⟩
    intro n S2 hret
    obtain ⟨hn, _, t, ht, htab⟩ := get_list2_returned S S1 s f list hs hf n S2 hret
    refine ⟨hn, t, ht, ?_, ?_⟩
    · rw [htab, sequence_table_eq, sequence_entries_length]
    · rw [htab]
      exact holds_sequence_entries list.items

/-- C5, witness: three suggestions for the word `kissa` come back as the sequence
`1 -> kisa, 2 -> kissat, 3 -> kiska`. -/
theorem list_query_sequence_witness :
    ∃ (S2 : State) (t : Nat),
      lualibvoikko_suggest_cstr
        (sample_lib (none, .null) (some ⟨64, ["kisa", "kissat", "kiska"]⟩) none)
        sample_state = .ok 1 S2 ∧
      S2.stack.head? = some (.table t) ∧ (S2.heap.getD t []).length = 3 ∧
      holds_sequence (S2.heap.getD t []) ["kisa", "kissat", "kiska"] := by
  have h := (list_query_sequence sample_state sample_state "kissa" rfl).2.2.2.1
    (fun _ _ => some ⟨64, ["kisa", "kissat", "kiska"]⟩) ⟨64, ["kisa", "kissat", "kiska"]⟩ rfl
  obtain ⟨S2, hret⟩ := h.1 (by decide) (by intro m hm; simp [sample_state] at hm)
  obtain ⟨_, t, h2, h3, h4⟩ := h.2 1 S2 hret
  exact ⟨S2, t, hret, h2, h3, h4⟩

theorem outstanding_append (xs ys : List NativeEvent) :
    ∀ live : List Nat, outstanding (xs ++ ys) live
      = (outstanding xs live).bind (fun l => outstanding ys l) := by
  induction xs with
  | nil => intro live; rfl
  | cons x xs ih =>
    intro live
    cases x with
    | cstr_array_returned a => exact ih (a :: live)
    | cstr_array_read a k =>
      show (if a ∈ live then outstanding (xs ++ ys) live else none)
        = (if a ∈ live then outstanding xs live else none).bind _
      split_ifs
      · exact ih _
      · rfl
    | voikkoFreeCstrArray a =>
      show (if a ∈ live then outstanding (xs ++ ys) (live.erase a) else none)
        = (if a ∈ live then outstanding xs (live.erase a) else none).bind _
      split_ifs
      · exact ih _
      · rfl
    | voikkoTerminate h => exact ih live
    | voikko_free_mor_analysis a => exact ih live
    | voikko_free_mor_analysis_value_cstr v => exact ih live

theorem outstanding_reads (a : Nat) (reads : List NativeEvent) :
    ∀ live : List Nat, a ∈ live → (∀ ev ∈ reads, ∃ j, ev = .cstr_array_read a j) →
      outstanding reads live = some live := by
  induction reads with
  | nil => intro live _ _; rfl
  | cons ev reads ih =>
    intro live ha h
    obtain ⟨j, rfl⟩ := h ev (List.mem_cons_self _ _)
    show (if a ∈ live then outstanding reads live else none) = some live
    rw [if_pos ha]
    exact ih live ha (fun e he => h e (List.mem_cons_of_mem _ he))

theorem copy_reads_reads (a : Nat) (n : Nat) :
    ∀ k : Nat, ∀ ev ∈ copy_reads a n k, ∃ j, ev = .cstr_array_read a j := by
  induction n with
  | zero =>
    intro k ev hev
    simp only [copy_reads, List.mem_singleton] at hev
    exact ⟨k, hev⟩
  | succ n ih =>
    intro k ev hev
    simp only [copy_reads, List.mem_cons] at hev
    rcases hev with h | h | h
    · exact ⟨k, h⟩
    · exact ⟨k, h⟩
    · exact ih (k + 1) ev h

theorem outstanding_completed (tr : List NativeEvent) (a n : Nat) (live : List Nat)
    (h : outstanding tr [] = some live) :
    outstanding (tr ++ (.cstr_array_returned a :: copy_reads a n 0)
      ++ [.voikkoFreeCstrArray a]) [] = some live := by
  rw [List.append_assoc, outstanding_append, h]
  show outstanding (copy_reads a n 0 ++ [.voikkoFreeCstrArray a]) (a :: live) = some live
  rw [outstanding_append, outstanding_reads a _ (a :: live) (List.mem_cons_self _ _)
    (copy_reads_reads a n 0)]
  show (if a ∈ a :: live then outstanding [] ((a :: live).erase a) else none) = some live
  rw [if_pos (List.mem_cons_self _ _), List.erase_cons_head]
  rfl

theorem outstanding_abandoned (tr : List NativeEvent) (a : Nat) (reads : List NativeEvent)
    (live : List Nat) (h : outstanding tr [] = some live)
    (hr : ∀ ev ∈ reads, ∃ j, ev = .cstr_array_read a j) :
    outstanding (tr ++ .cstr_array_returned a :: reads) [] = some (a :: live) := by
  rw [outstanding_append, h]
  show outstanding reads (a :: live) = some (a :: live)
  exact outstanding_reads a reads (a :: live) (List.mem_cons_self _ _) hr

/-- Effect of one query on the arrays outstanding: none when it returns or fails the
argument check, its own array when it is abandoned inside `make_table`. -/
theorem run_query_trace (q : ListQuery) (S : State) (live : List Nat)
    (h : outstanding S.trace [] = some live) :
    (∃ (n : Nat) (S1 : State), run_query q S = .ok n S1 ∧
      outstanding S1.trace [] = some live) ∨
    (∃ (e : LuaError) (S1 : State) (live1 : List Nat), run_query q S = .raised e S1 ∧
      outstanding S1.trace [] = some live1) ∨
    (run_query q S = .undefined ∧ ¬ short_arrays q) := by
  rcases luaL_checkstring_defined S 1 with ⟨s, S1, hs⟩ | hs
  · have htr : S1.trace = S.trace := (luaL_checkstring_frame S S1 1 s hs).2.2.1
    cases q with
    | by_path f =>
      cases hf : f s with
      | none =>
        exact Or.inl ⟨0, S1, get_list_none S S1 s f hs hf, by rw [htr]; exact h⟩
      | some list =>
        rcases get_list_outcome S S1 s f list hs hf
          with ⟨m, h1⟩ | ⟨S2, reads, h1, h2, h3⟩ | ⟨h1, h2⟩
        · refine Or.inl ⟨1, _, h1, ?_⟩
          simp only [htr]
          exact outstanding_completed _ _ _ live h
        · refine Or.inr (Or.inl ⟨_, S2, list.addr :: live, h1, ?_⟩)
          rw [h2, htr]
          exact outstanding_abandoned _ _ reads live h h3
        · refine Or.inr (Or.inr ⟨h1, ?_⟩)
          intro hshort
          have := hshort s list hf
          unfold INT_MAX at this
          omega
    | by_handle f =>
      cases hf : f (registry_handle S1) s with
      | none =>
        exact Or.inl ⟨0, _, get_list2_none S S1 s f hs hf, by simp only [htr]; exact h⟩
      | some list =>
        rcases get_list2_outcome S S1 s f list hs hf
          with ⟨m, h1⟩ | ⟨S2, reads, h1, h2, h3⟩ | ⟨h1, h2⟩
        · refine Or.inl ⟨1, _, h1, ?_⟩
          simp only [htr]
          exact outstanding_completed _ _ _ live h
        · refine Or.inr (Or.inl ⟨_, S2, list.addr :: live, h1, ?_⟩)
          rw [h2, htr]
          exact outstanding_abandoned _ _ reads live h h3
        · refine Or.inr (Or.inr ⟨h1, ?_⟩)
          intro hshort
          have := hshort (registry_handle S1) s list hf
          unfold INT_MAX at this
          omega
  · refine Or.inr (Or.inl ⟨.bad_argument 1, S, live, ?_, h⟩)
    cases q with
    | by_path f => simp only [run_query, get_list, hs, Result.bind]
    | by_handle f => simp only [run_query, get_list2, hs, Result.bind]

theorem run_queries_trace (calls : List (ListQuery × List LuaValue × Option Nat)) :
    ∀ (S S1 : State) (live : List Nat), outstanding S.trace [] = some live →
      run_queries calls S = some S1 →
      ∃ live1 : List Nat, outstanding S1.trace [] = some live1 ∧
        (all_returned calls S = true → live1 = live) := by
  induction calls with
  | nil =>
    intro S S1 live h hrun
    simp only [run_queries, Option.some.injEq] at hrun
    subst hrun
    exact ⟨live, h, fun _ => rfl⟩
  | cons c calls ih =>
    intro S S1 live h hrun
    obtain ⟨q, args, budget⟩ := c
    rcases run_query_trace q { S with stack := args, memory := budget } live h
      with ⟨n, S2, h1, h2⟩ | ⟨e, S2, live2, h1, h2⟩ | ⟨h1, _⟩
    · simp only [run_queries, h1] at hrun
      obtain ⟨live1, h3, h4⟩ := ih S2 S1 live h2 hrun
      refine ⟨live1, h3, ?_⟩
      intro hall
      simp only [all_returned, h1] at hall
      exact h4 hall
    · simp only [run_queries, h1] at hrun
      obtain ⟨live1, h3, _⟩ := ih S2 S1 live2 h2 hrun
      refine ⟨live1, h3, ?_⟩
      intro hall
      simp [all_returned, h1] at hall
    · simp [run_queries, h1] at hrun

theorem run_queries_defined (calls : List (ListQuery × List LuaValue × Option Nat)) :
    ∀ (S : State) (live : List Nat), outstanding S.trace [] = some live →
      (∀ c ∈ calls, short_arrays c.1) → ∃ S1 : State, run_queries calls S = some S1 := by
  induction calls with
  | nil => intro S _ _ _; exact ⟨S, rfl⟩
  | cons c calls ih =>
    intro S live h hshort
    obtain ⟨q, args, budget⟩ := c
    rcases run_query_trace q { S with stack := args, memory := budget } live h
      with ⟨n, S2, h1, h2⟩ | ⟨e, S2, live2, h1, h2⟩ | ⟨_, h2⟩
    · simp only [run_queries, h1]
      exact ih S2 live h2 (fun c hc => hshort c (List.mem_cons_of_mem _ hc))
    · simp only [run_queries, h1]
      exact ih S2 live2 h2 (fun c hc => hshort c (List.mem_cons_of_mem _ hc))
    · exact absurd (hshort _ (List.mem_cons_self _ _)) h2

/-- C7, counterexample: the interpreter can serve three more memory-needing calls when
a query obtains the array at address 64 holding two strings; `make_table` is abandoned
by the memory error at the second `lua_pushstring`, control never reaches
`voikkoFreeCstrArray`, and after this invocation the array is still outstanding. -/
theorem list_query_abandoned_keeps_array :
    ∃ S2 : State,
      get_list sample_state_low_memory (fun _ => some ⟨64, ["fi", "sv"]⟩)
        = .raised .not_enough_memory S2 ∧
      S2.trace = [.cstr_array_returned 64, .cstr_array_read 64 0, .cstr_array_read 64 0,
        .cstr_array_read 64 1, .cstr_array_read 64 1] ∧
      run_queries [(.by_path (fun _ => some ⟨64, ["fi", "sv"]⟩), [.string "kissa"], some 3)]
        sample_state = some S2 ∧
      outstanding S2.trace [] = some [64] :=
  ⟨_, rfl, rfl, rfl, rfl⟩

/-- C7, amended: over the trace of native acquisitions, reads and releases, a
list-valued query that returns a sequence releases the array it obtained exactly once,
by one `voikkoFreeCstrArray` on that array after the last read of the array (after
the copy, which the returned table holds) and before returning, and releases nothing
else (it does return when the array has fewer than `INT_MAX` strings and the
interpreter serves the memory-needing calls of `make_table`); it performs no release
when the native call returned null; a query that a Lua error abandons inside
`make_table` has only read the array and leaves it unreleased.
Consequently, after any number of invocations no array has been released twice or
read after its release, and no array is left unreleased if every invocation
returned. -/
theorem list_query_releases_once :
    (∀ (S S1 : State) (s : String) (f : String → Option CstrArray) (list : CstrArray),
      luaL_checkstring S 1 = .ok s S1 → f s = some list →
      ((list.items.length : Int) < INT_MAX → enough_memory S (2 * list.items.length + 1) →
        ∃ S2 : State, get_list S f = .ok 1 S2) ∧
      (∀ (n : Nat) (S2 : State), get_list S f = .ok n S2 →
        n = 1 ∧
        S2.trace = S.trace ++ (.cstr_array_returned list.addr
          :: copy_reads list.addr list.items.length 0)
          ++ [.voikkoFreeCstrArray list.addr] ∧
        ∃ t : Nat, S2.stack.head? = some (.table t) ∧
          S2.heap.getD t [] = rawset_list [] (sequence_entries list.items 1)) ∧
      (∀ (e : LuaError) (S2 : State), get_list S f = .raised e S2 →
        e = .not_enough_memory ∧ ∃ reads : List NativeEvent,
          S2.trace = S.trace ++ .cstr_array_returned list.addr :: reads ∧
          ∀ ev ∈ reads, ∃ j, ev = .cstr_array_read list.addr j)) ∧
    (∀ (S S1 : State) (s : String) (f : String → Option CstrArray),
      luaL_checkstring S 1 = .ok s S1 → f s = none →
      ∃ S2 : State, get_list S f = .ok 0 S2 ∧ S2.trace = S.trace) ∧
    (∀ (S S1 : State) (s : String) (f : Pointer → String → Option CstrArray)
      (list : CstrArray),
      luaL_checkstring S 1 = .ok s S1 → f (registry_handle S1) s = some list →
      ((list.items.length : Int) < INT_MAX → enough_memory S (2 * list.items.length + 1) →
        ∃ S2 : State, get_list2 S f = .ok 1 S2) ∧
      (∀ (n : Nat) (S2 : State), get_list2 S f = .ok n S2 →
        n = 1 ∧
        S2.trace = S.trace ++ (.cstr_array_returned list.addr
          :: copy_reads list.addr list.items.length 0)
          ++ [.voikkoFreeCstrArray list.addr] ∧
        ∃ t : Nat, S2.stack.head? = some (.table t) ∧
          S2.heap.getD t [] = rawset_list [] (sequence_entries list.items 1)) ∧
      (∀ (e : LuaError) (S2 : State), get_list2 S f = .raised e S2 →
        e = .not_enough_memory ∧ ∃ reads : List NativeEvent,
          S2.trace = S.trace ++ .cstr_array_returned list.addr :: reads ∧
          ∀ ev ∈ reads, ∃ j, ev = .cstr_array_read list.addr j)) ∧
    (∀ (S S1 : State) (s : String) (f : Pointer → String → Option CstrArray),
      luaL_checkstring S 1 = .ok s S1 → f (registry_handle S1) s = none →
      ∃ S2 : State, get_list2 S f = .ok 0 S2 ∧ S2.trace = S.trace) ∧
    (∀ (calls : List (ListQuery × List LuaValue × Option Nat)) (S S1 : State),
      outstanding S.trace [] = some [] → run_queries calls S = some S1 →
      ∃ live : List Nat, outstanding S1.trace [] = some live ∧
        (all_returned calls S = true → live = [])) ∧
    (∀ (calls : List (ListQuery × List LuaValue × Option Nat)) (S : State),
      outstanding S.trace [] = some [] → (∀ c ∈ calls, short_arrays c.1) →
      ∃ S1 : State, run_queries calls S = some S1) := by
  refine ⟨?_, ?_, ?_, ?_, ?_, ?_⟩
  · intro S S1 s f list hs hf
    exact ⟨get_list_defined S S1 s f list hs hf, get_list_returned S S1 s f list hs hf,
      get_list_raised S S1 s f list hs hf⟩
  · intro S S1 s f hs hf
    exact ⟨_, get_list_none S S1 s f hs hf, (luaL_checkstring_frame S S1 1 s hs).2.2.1⟩
  · intro S S1 s f list hs hf
    exact ⟨get_list2_defined S S1 s f list hs hf, get_list2_returned S S1 s f list hs hf,
      get_list2_raised S S1 s f list hs hf⟩
  · intro S S1 s f hs hf
    exact ⟨_, get_list2_none S S1 s f hs hf, (luaL_checkstring_frame S S1 1 s hs).2.2.1⟩
  · intro calls S S1 h hrun
    exact run_queries_trace calls S S1 [] h hrun
  · intro calls S h hshort
    exact run_queries_defined calls S [] h hshort

/-- C7, witness: a query returning both strings of the array at address 64 reads
elements 0, 1 and the terminator and then releases the array; three queries in a row
that all return leave nothing outstanding. -/
theorem list_query_releases_once_witness :
    (∃ (S2 : State) (t : Nat),
      get_list sample_state (fun _ => some ⟨64, ["fi", "sv"]⟩) = .ok 1 S2 ∧
      S2.trace = [.cstr_array_returned 64, .cstr_array_read 64 0, .cstr_array_read 64 0,
        .cstr_array_read 64 1, .cstr_array_read 64 1, .cstr_array_read 64 2,
        .voikkoFreeCstrArray 64] ∧
      S2.stack.head? = some (.table t) ∧
      S2.heap.getD t [] = rawset_list [] (sequence_entries ["fi", "sv"] 1)) ∧
    (∃ (S1 : State) (live : List Nat),
      run_queries
        [(.by_path (fun _ => some ⟨64, ["fi"]⟩), [.string "/usr/lib/voikko"], none),
         (.by_handle (fun _ _ => none), [.string "kissa"], some 0),
         (.by_path (fun _ => some ⟨64, ["fi", "sv"]⟩), [.string "/usr/lib"], some 5)]
        sample_state = some S1 ∧
      outstanding S1.trace [] = some live ∧ live = []) := by
  constructor
  · have h := list_query_releases_once.1 sample_state sample_state "kissa"
      (fun _ => some ⟨64, ["fi", "sv"]⟩) ⟨64, ["fi", "sv"]⟩ rfl rfl
    obtain ⟨S2, hret⟩ := h.1 (by decide) (by intro m hm; simp [sample_state] at hm)
    obtain ⟨_, h2, t, h3, h4⟩ := h.2.1 1 S2 hret
    exact ⟨S2, t, hret, h2, h3, h4⟩
  · have hex : ∃ S1 : State, run_queries
        [(.by_path (fun _ => some ⟨64, ["fi"]⟩), [.string "/usr/lib/voikko"], none),
         (.by_handle (fun _ _ => none), [.string "kissa"], some 0),
         (.by_path (fun _ => some ⟨64, ["fi", "sv"]⟩), [.string "/usr/lib"], some 5)]
        sample_state = some S1 := ⟨_, rfl⟩
    obtain ⟨S1, hrun⟩ := hex
    obtain ⟨live, h1, h2⟩ := list_query_releases_once.2.2.2.2.1 _ sample_state S1 rfl hrun
    exact ⟨S1, live, hrun, h1, h2 rfl⟩

/-! ## Claims about the handle -/

theorem Formatted_cons_text (c : Char) (cs : List Char) :
    (Formatted.text cs).cons c = .text (c :: cs) := rfl

theorem format_noargs_plain (cs : List Char) (h : '%' ∉ cs) : format_noargs cs = .text cs := by
  induction cs with
  | nil => rfl
  | cons c cs ih =>
    simp only [List.mem_cons, not_or] at h
    have hc : c ≠ '%' := fun e => h.1 e.symm
    rw [format_noargs.eq_def]
    simp only [if_neg hc]
    rw [ih h.2, Formatted_cons_text]

theorem luaL_error_plain {α : Type} (S : State) (text : String) (h : '%' ∉ text.data) :
    (luaL_error S text : Result α) = .raised (.message (S.position ++ text)) S := by
  unfold luaL_error
  rw [format_noargs_plain text.data h]

theorem init_store (S : State) (handle : Pointer) :
    lua_settable (lua_pushlightuserdata (lua_pushlightuserdata S HANDLE) handle)
      LUA_REGISTRYINDEX
      = .ok () { S with
          registry := rawset S.registry (.lightuserdata HANDLE) (.lightuserdata handle) } := by
  unfold lua_settable
  rw [index2table_registry]
  simp [lua_pushlightuserdata, write_table, read_table]

theorem registry_handle_of_slot (S : State) (p : Pointer)
    (h : rawget S.registry (.lightuserdata HANDLE) = .lightuserdata p) :
    registry_handle S = p := by
  unfold registry_handle
  rw [h]

/-- The native error text is itself the format of `luaL_error`: a doubled percent
sign comes out single, and a conversion such as `%s` reads an argument that was
never passed. -/
theorem init_error_text_is_format :
    lualibvoikko_init (sample_lib (some "100%% broken", .null) none none) sample_init_state
      = .raised (.message "main.lua:3: 100% broken") sample_init_state ∧
    lualibvoikko_init (sample_lib (some "cannot open %s", .null) none none) sample_init_state
      = .undefined :=
  ⟨rfl, rfl⟩

/-- C6, counterexample: the native initializer reports "Specified dictionary variant
was not found" to a call made at line 3 of `main.lua`; the message of the raised error
is that text preceded by the position `main.lua:3: `, not the native text itself. -/
theorem init_error_message_has_position :
    lualibvoikko_init
        (sample_lib (some "Specified dictionary variant was not found", .null) none none)
        sample_init_state
      = .raised (.message "main.lua:3: Specified dictionary variant was not found")
          sample_init_state ∧
    "main.lua:3: Specified dictionary variant was not found"
      ≠ "Specified dictionary variant was not found" :=
  ⟨rfl, by decide⟩

/-- C6, amended: called with two string arguments, `init` raises an error only if the
native initializer reports a non-null error message; when that message contains no
percent sign `init` does raise, the message of the error is the position text
`luaL_error` puts first (the caller's `chunk:line: `, empty when unknown) followed by
the native error text, and the registry is left unchanged; when no error is reported
`init` returns no values, the registry slot under `&HANDLE` holds exactly the handle
the native initializer returned, every other slot is unchanged, and `get_handle`
afterwards yields that handle. -/
theorem init_outcome (lib : Libvoikko) (S S1 S2 : State) (langcode path : String)
    (h1 : luaL_checkstring S 1 = .ok langcode S1)
    (h2 : luaL_checkstring S1 2 = .ok path S2) :
    (∀ (e : LuaError) (S3 : State), lualibvoikko_init lib S = .raised e S3 →
      (lib.voikkoInit langcode path).1 ≠ none) ∧
    (∀ text : String, (lib.voikkoInit langcode path).1 = some text → '%' ∉ text.data →
      lualibvoikko_init lib S = .raised (.message (S.position ++ text)) S2 ∧
        S2.registry = S.registry) ∧
    ((lib.voikkoInit langcode path).1 = none →
      ∃ S3 : State, lualibvoikko_init lib S = .ok 0 S3 ∧
        rawget S3.registry (.lightuserdata HANDLE)
          = .lightuserdata (lib.voikkoInit langcode path).2 ∧
        (∀ key, key ≠ .lightuserdata HANDLE →
          rawget S3.registry key = rawget S.registry key) ∧
        ∃ S4 : State, get_handle S3 = .ok (lib.voikkoInit langcode path).2 S4) := by
  have hf1 := luaL_checkstring_frame S S1 1 langcode h1
  have hf2 := luaL_checkstring_frame S1 S2 2 path h2
  have hreg : S2.registry = S.registry := by rw [hf2.1, hf1.1]
  have hpos : S2.position = S.position := by rw [hf2.2.2.2.1, hf1.2.2.2.1]
  have hok : (lib.voikkoInit langcode path).1 = none →
      lualibvoikko_init lib S = .ok 0 { S2 with
        registry := rawset S2.registry (.lightuserdata HANDLE)
          (.lightuserdata (lib.voikkoInit langcode path).2) } := by
    intro hnone
    unfold lualibvoikko_init
    rw [h1]
    simp only [Result.bind, h2]
    cases hinit : lib.voikkoInit langcode path with
    | mk err handle =>
      rw [hinit] at hnone
      simp only at hnone
      subst hnone
      simp only [init_store, Result.bind]
  refine ⟨?_, ?_, ?_⟩
  · intro e S3 hraised hnone
    rw [hok hnone] at hraised
    simp at hraised
  · intro text htext hplain
    refine ⟨?_, hreg⟩
    unfold lualibvoikko_init
    rw [h1]
    simp only [Result.bind, h2]
    cases hinit : lib.voikkoInit langcode path with
    | mk err handle =>
      rw [hinit] at htext
      simp only at htext
      subst htext
      simp only [luaL_error_plain S2 text hplain, hpos]
  · intro hnone
    have hslot : rawget (rawset S2.registry (.lightuserdata HANDLE)
        (.lightuserdata (lib.voikkoInit langcode path).2)) (.lightuserdata HANDLE)
        = .lightuserdata (lib.voikkoInit langcode path).2 :=
      rawget_rawset_same _ _ _ (by simp)
    refine ⟨_, hok hnone, hslot, ?_, ?_⟩
    · intro key hkey
      simp only
      rw [rawget_rawset_other _ _ _ _ hkey, hreg]
    · have hget := get_handle_eq { S2 with
        registry := rawset S2.registry (.lightuserdata HANDLE)
          (.lightuserdata (lib.voikkoInit langcode path).2) }
      rw [registry_handle_of_slot _ _ hslot] at hget
      exact ⟨_, hget⟩

/-- C6, witness: a failing and a succeeding initialization of `voikko_init ("xx", path)`. -/
theorem init_outcome_witness :
    (lualibvoikko_init (sample_lib (some "Unknown language", .null) none none)
        sample_init_state
      = .raised (.message (sample_init_state.position ++ "Unknown language"))
          sample_init_state ∧
      sample_init_state.registry = sample_init_state.registry) ∧
    (∃ S3 : State,
      lualibvoikko_init (sample_lib (none, .heap 7) none none) sample_init_state = .ok 0 S3 ∧
      rawget S3.registry (.lightuserdata HANDLE) = .lightuserdata (.heap 7) ∧
      (∀ key, key ≠ .lightuserdata HANDLE →
        rawget S3.registry key = rawget sample_init_state.registry key) ∧
      ∃ S4 : State, get_handle S3 = .ok (.heap 7) S4) :=
  ⟨(init_outcome (sample_lib (some "Unknown language", .null) none none) sample_init_state
      sample_init_state sample_init_state "xx" "/usr/lib/voikko" rfl rfl).2.1
      "Unknown language" rfl (by decide),
   (init_outcome (sample_lib (none, .heap 7) none none) sample_init_state
      sample_init_state sample_init_state "xx" "/usr/lib/voikko" rfl rfl).2.2 rfl⟩

/-- C8: `terminate` hands the handle read from the registry to `voikkoTerminate`,
returns no values and leaves the registry unchanged: the slot under `&HANDLE` still
holds the same handle, so `get_handle` after `terminate` yields the handle it yielded
before. -/
theorem terminate_keeps_registry (S : State) :
    ∃ S1 : State, lualibvoikko_terminate S = .ok 0 S1 ∧
      S1.trace = S.trace ++ [.voikkoTerminate (registry_handle S)] ∧
      S1.registry = S.registry ∧
      (∃ S0 : State, get_handle S = .ok (registry_handle S) S0) ∧
      (∃ S2 : State, get_handle S1 = .ok (registry_handle S) S2) := by
  have hterm : lualibvoikko_terminate S = .ok 0 { S with
      stack := rawget S.registry (.lightuserdata HANDLE) :: S.stack
      trace := S.trace ++ [.voikkoTerminate (registry_handle S)] } := by
    unfold lualibvoikko_terminate
    rw [get_handle_eq]
    rfl
  have hafter := get_handle_eq { S with
      stack := rawget S.registry (.lightuserdata HANDLE) :: S.stack
      trace := S.trace ++ [.voikkoTerminate (registry_handle S)] }
  exact ⟨_, hterm, rfl, rfl, ⟨_, get_handle_eq S⟩, ⟨_, hafter⟩⟩

end Lualibvoikko
